import Mathlib

/-!
Verification of the betting-scrappers pipeline core.

This file embeds, as Lean definitions, the parts of the repository relevant
to the claims under scrutiny:

* `commons/normalized_events.py` — `merge_normalized` and the key
  computation of `upsert_normalized`;
* `python-scrappers/sportingbetraw.py` — `prune_fixture_raw`,
  `is_valid_fixture`, `fetch_fixture_detail`, `enrich_fixtures`,
  `parse_start`/`filter_fixtures_by_date`, and the flush loop of `main`;
* `python-scrappers/superbetraw.py` — `prune_event_raw`,
  `fetch_full_event`, `enrich_events_with_markets`, and the flush loop of
  `main`;
* `python-scrappers/betmgmraw.py` — `enrich_events`.

Python dictionaries are modelled as insertion-ordered association lists and
JSON-ish Python values as the inductive `Json` below.  Network transports,
the Mongo collection and the wall clock are abstracted as explicit
parameters; thread-pool completion order is abstracted as an explicit
permutation of the submitted task indices.
-/

mutual
/-- A JSON-like Python value.  Numbers are rationals (covering Python ints
and the decimal floats seen in payloads); objects are insertion-ordered
association lists, matching Python dict semantics.  The array and object
spines are their own inductives (`JArr`, `JObj`) so that decidable equality
can be derived; `List`-based views are provided below. -/
inductive Json where
  | null
  | bool (b : Bool)
  | num (q : ℚ)
  | str (s : String)
  | arr (xs : JArr)
  | obj (fs : JObj)
  deriving DecidableEq, Repr

/-- Spine of a JSON array. -/
inductive JArr where
  | nil
  | cons (hd : Json) (tl : JArr)
  deriving DecidableEq, Repr

/-- Spine of a JSON object: an insertion-ordered key/value list. -/
inductive JObj where
  | nil
  | cons (key : String) (val : Json) (tl : JObj)
  deriving DecidableEq, Repr
end

namespace JArr

def ofList : List Json → JArr
  | [] => .nil
  | x :: xs => .cons x (ofList xs)

def toList : JArr → List Json
  | .nil => []
  | .cons x xs => x :: toList xs

@[simp] theorem toList_ofList : ∀ xs : List Json, toList (ofList xs) = xs
  | [] => rfl
  | _ :: xs => by simp [ofList, toList, toList_ofList xs]

@[simp] theorem ofList_toList : ∀ xs : JArr, ofList (toList xs) = xs
  | .nil => rfl
  | .cons _ xs => by simp [ofList, toList, ofList_toList xs]

theorem toList_injective : Function.Injective toList := by
  intro a b h
  have := congrArg ofList h
  simpa using this

end JArr

namespace JObj

def ofList : List (String × Json) → JObj
  | [] => .nil
  | (k, v) :: fs => .cons k v (ofList fs)

def toList : JObj → List (String × Json)
  | .nil => []
  | .cons k v fs => (k, v) :: toList fs

@[simp] theorem toList_ofList_fields : ∀ fs : List (String × Json),
    toList (ofList fs) = fs
  | [] => rfl
  | (_, _) :: fs => by simp [ofList, toList, toList_ofList_fields fs]

@[simp] theorem ofList_toList_fields : ∀ fs : JObj, ofList (toList fs) = fs
  | .nil => rfl
  | .cons _ _ fs => by simp [ofList, toList, ofList_toList_fields fs]

theorem toList_fields_injective : Function.Injective toList := by
  intro a b h
  have := congrArg ofList h
  simpa using this

end JObj

/-- Array literal helper: a JSON array from a `List`. -/
def jarr (xs : List Json) : Json := .arr (JArr.ofList xs)

/-- Object literal helper: a JSON object from a key/value `List`. -/
def jobj (fs : List (String × Json)) : Json := .obj (JObj.ofList fs)

@[simp] theorem jarr_inj {xs ys : List Json} : jarr xs = jarr ys ↔ xs = ys := by
  constructor
  · intro h
    injection h with h
    have := congrArg JArr.toList h
    simpa using this
  · intro h; rw [h]

@[simp] theorem jobj_inj {xs ys : List (String × Json)} : jobj xs = jobj ys ↔ xs = ys := by
  constructor
  · intro h
    injection h with h
    have := congrArg JObj.toList h
    simpa using this
  · intro h; rw [h]

/-- A Python dict with string keys, in insertion order. -/
abbrev Dict := List (String × Json)

namespace Json

/-- Python truthiness of a value (`bool(x)`). -/
def truthy : Json → Bool
  | .null => false
  | .bool b => b
  | .num q => q ≠ 0
  | .str s => s ≠ ""
  | .arr xs => xs != .nil
  | .obj fs => fs != .nil

/-- Python `x or y`: the first operand when truthy, otherwise the second. -/
def pyOr (a b : Json) : Json := if a.truthy then a else b

/-- The element list of an array value (empty for anything else). -/
def getArr : Json → List Json
  | .arr xs => xs.toList
  | _ => []

/-- The field list of an object value (empty for anything else). -/
def jfields : Json → Dict
  | .obj fs => fs.toList
  | _ => []

end Json

/-- `d.get(k)` on an association list: `None` when the key is absent.
Mirrors Python dict lookup (keys are unique in dicts built by the code;
the first occurrence wins here). -/
def dget : Dict → String → Json
  | [], _ => .null
  | (k', v) :: rest, k => if k' = k then v else dget rest k

/-- `k in d` on an association list. -/
def hasKey : Dict → String → Bool
  | [], _ => false
  | (k', _) :: rest, k => k' = k || hasKey rest k

/-- `d[k] = v`: replace in place when the key is present (Python dicts
keep the original insertion position), append otherwise. -/
def dset : Dict → String → Json → Dict
  | [], k, v => [(k, v)]
  | (k', v') :: rest, k, v =>
      if k' = k then (k', v) :: rest else (k', v') :: dset rest k v

/-- `d.setdefault(k, v)`: insert at the end only when the key is absent. -/
def dsetdefault (d : Dict) (k : String) (v : Json) : Dict :=
  if hasKey d k then d else d ++ [(k, v)]

/-- `d.pop(k, None)`: drop the entry for `k` when present. -/
def dpop : Dict → String → Dict
  | [], _ => []
  | (k', v') :: rest, k => if k' = k then rest else (k', v') :: dpop rest k

/-- `d.get(k)` lifted to a JSON value (`None` when not a dict). -/
def Json.jget : Json → String → Json
  | .obj fs, k => dget fs.toList k
  | _, _ => .null

section DictLemmas

@[simp] theorem dget_nil (k : String) : dget [] k = .null := rfl

theorem dget_dset_self : ∀ (d : Dict) (k : String) (v : Json), dget (dset d k v) k = v
  | [], k, v => by simp [dget, dset]
  | (k', v') :: rest, k, v => by
    by_cases h : k' = k <;> simp [dget, dset, h, dget_dset_self rest k v]

theorem dget_dset_ne : ∀ (d : Dict) (k k' : String) (v : Json), k ≠ k' →
    dget (dset d k v) k' = dget d k'
  | [], _, _, _, h => by simp [dget, dset, h]
  | (k₀, v₀) :: rest, k, k', v, h => by
    by_cases h0 : k₀ = k
    · subst h0; simp [dget, dset, h]
    · simp only [dset, if_neg h0, dget]
      by_cases h1 : k₀ = k' <;> simp [h1, dget_dset_ne rest k k' v h]

theorem hasKey_dset : ∀ (d : Dict) (k k' : String) (v : Json),
    hasKey (dset d k v) k' = (decide (k = k') || hasKey d k')
  | [], k, k', v => by simp [hasKey, dset]
  | (k₀, v₀) :: rest, k, k', v => by
    by_cases h0 : k₀ = k
    · subst h0
      simp only [dset, if_pos rfl, hasKey]
      by_cases h1 : k₀ = k' <;> simp [h1]
    · simp only [dset, if_neg h0, hasKey, hasKey_dset rest k k' v]
      by_cases h1 : k₀ = k' <;> simp [h1]

theorem dset_dget_self : ∀ (d : Dict) (k : String), hasKey d k = true →
    dset d k (dget d k) = d
  | [], k, h => by simp [hasKey] at h
  | (k₀, v₀) :: rest, k, h => by
    by_cases h0 : k₀ = k
    · simp [dset, dget, h0]
    · simp only [hasKey, h0, decide_eq_true_eq, Bool.false_or,
        decide_False] at h
      simp [dset, dget, h0, dset_dget_self rest k h]

theorem hasKey_append_single : ∀ (d : Dict) (k k' : String) (v : Json),
    hasKey (d ++ [(k, v)]) k' = (hasKey d k' || decide (k = k'))
  | [], k, k', v => by simp [hasKey]
  | (k₀, v₀) :: rest, k, k', v => by
    show (decide (k₀ = k') || hasKey (rest ++ [(k, v)]) k') = _
    rw [hasKey_append_single rest k k' v]
    by_cases h1 : k₀ = k' <;> simp [hasKey, h1]

theorem dget_append_single_ne : ∀ (d : Dict) {k k' : String} (v : Json), k ≠ k' →
    dget (d ++ [(k, v)]) k' = dget d k'
  | [], k, k', v, h => by simp [dget, h]
  | (k₀, v₀) :: rest, k, k', v, h => by
    simp only [List.cons_append, dget]
    by_cases h0 : k₀ = k' <;> simp [h0, dget_append_single_ne rest v h]

theorem dget_append_single_self : ∀ (d : Dict) {k : String} (v : Json),
    hasKey d k = false → dget (d ++ [(k, v)]) k = v
  | [], k, v, _ => by simp [dget]
  | (k₀, v₀) :: rest, k, v, h => by
    simp only [hasKey, Bool.or_eq_false_iff, decide_eq_false_iff_not] at h
    simp only [List.cons_append, dget, if_neg h.1]
    exact dget_append_single_self rest v h.2

theorem dsetdefault_of_hasKey {d : Dict} {k : String} (v : Json)
    (h : hasKey d k = true) : dsetdefault d k v = d := by
  simp [dsetdefault, h]

theorem hasKey_dsetdefault_self (d : Dict) (k : String) (v : Json) :
    hasKey (dsetdefault d k v) k = true := by
  unfold dsetdefault
  by_cases h : hasKey d k
  · simp [h]
  · simp [h, hasKey_append_single]

theorem hasKey_dsetdefault_ne {d : Dict} {k k' : String} (v : Json) (h : k ≠ k') :
    hasKey (dsetdefault d k v) k' = hasKey d k' := by
  unfold dsetdefault
  by_cases hk : hasKey d k
  · simp [hk]
  · simp [hk, hasKey_append_single, h]

theorem dget_dsetdefault_ne {d : Dict} {k k' : String} (v : Json) (h : k ≠ k') :
    dget (dsetdefault d k v) k' = dget d k' := by
  unfold dsetdefault
  by_cases hk : hasKey d k
  · simp [hk]
  · simp [hk, dget_append_single_ne d v h]

theorem dget_dsetdefault_self (d : Dict) (k : String) (v : Json) :
    dget (dsetdefault d k v) k = if hasKey d k then dget d k else v := by
  unfold dsetdefault
  by_cases hk : hasKey d k
  · simp [hk]
  · simp [hk, dget_append_single_self d v (by simpa using hk)]

end DictLemmas

/-! ## Provider-keyed source maps

`merge_normalized` builds a Python dict keyed by each source entry's
`provider` value.  Providers are arbitrary JSON values in Python, so this
map is an association list with `Json` keys. -/

abbrev PMap := List (Json × Json)

def pLookup : PMap → Json → Option Json
  | [], _ => none
  | (k', v) :: rest, k => if k' = k then some v else pLookup rest k

def pHasKey : PMap → Json → Bool
  | [], _ => false
  | (k', _) :: rest, k => decide (k' = k) || pHasKey rest k

/-- `m[k] = v` on a provider map: replace in place, else append. -/
def pset : PMap → Json → Json → PMap
  | [], k, v => [(k, v)]
  | (k', v') :: rest, k, v =>
      if k' = k then (k', v) :: rest else (k', v') :: pset rest k v

/-- The dict key used for one `sources` entry: `src.get("provider")`. -/
def srcKey (src : Json) : Json := src.jget "provider"

/-- The loop body shared by the dict comprehension over the existing
`sources` list and the loop over the incoming `sources` list in
`merge_normalized`: entries with a falsy provider are skipped, later
entries with the same provider overwrite earlier ones. -/
def buildSources : PMap → List Json → PMap
  | m, [] => m
  | m, src :: rest =>
      buildSources (if (srcKey src).truthy then pset m (srcKey src) src else m) rest

section PMapLemmas

theorem pset_of_not_hasKey : ∀ (m : PMap) (k v : Json),
    pHasKey m k = false → pset m k v = m ++ [(k, v)]
  | [], k, v, _ => rfl
  | (k₀, v₀) :: rest, k, v, h => by
    simp only [pHasKey, Bool.or_eq_false_iff, decide_eq_false_iff_not] at h
    simp [pset, h.1, pset_of_not_hasKey rest k v h.2]

theorem pset_append : ∀ (m n : PMap) (k v : Json),
    pHasKey m k = false → pset (m ++ n) k v = m ++ pset n k v
  | [], n, k, v, _ => rfl
  | (k₀, v₀) :: rest, n, k, v, h => by
    simp only [pHasKey, Bool.or_eq_false_iff, decide_eq_false_iff_not] at h
    simp [pset, h.1, pset_append rest n k v h.2]

theorem pset_pset_same : ∀ (m : PMap) (k v v' : Json),
    pset (pset m k v) k v' = pset m k v'
  | [], k, v, v' => by simp [pset]
  | (k₀, v₀) :: rest, k, v, v' => by
    by_cases h : k₀ = k <;> simp [pset, h, pset_pset_same rest k v v']

theorem pset_noop : ∀ (m : PMap) (k v : Json),
    pLookup m k = some v → pset m k v = m
  | [], k, v, h => by simp [pLookup] at h
  | (k₀, v₀) :: rest, k, v, h => by
    by_cases h0 : k₀ = k
    · simp only [pLookup, if_pos h0, Option.some.injEq] at h
      simp [pset, h0, h]
    · simp only [pLookup, if_neg h0] at h
      simp [pset, h0, pset_noop rest k v h]

theorem pset_comm : ∀ (m : PMap) (k k' v v' : Json), k ≠ k' →
    pHasKey m k = true → pset (pset m k v) k' v' = pset (pset m k' v') k v
  | [], k, k', v, v', _, hm => by simp [pHasKey] at hm
  | (k₀, v₀) :: rest, k, k', v, v', h, hm => by
    by_cases h0 : k₀ = k
    · subst h0; simp [pset, h, Ne.symm h]
    · by_cases h1 : k₀ = k'
      · subst h1; simp [pset, h0, Ne.symm h]
      · have hm' : pHasKey rest k = true := by
          simpa [pHasKey, h0] using hm
        simp [pset, h0, h1, pset_comm rest k k' v v' h hm']

theorem pHasKey_pset : ∀ (m : PMap) (k k' v : Json),
    pHasKey (pset m k v) k' = (decide (k = k') || pHasKey m k')
  | [], k, k', v => by simp [pHasKey, pset]
  | (k₀, v₀) :: rest, k, k', v => by
    by_cases h0 : k₀ = k
    · subst h0
      simp only [pset, if_pos rfl, pHasKey]
      by_cases h1 : k₀ = k' <;> simp [h1]
    · simp only [pset, if_neg h0, pHasKey, pHasKey_pset rest k k' v]
      by_cases h1 : k₀ = k' <;> simp [h1]

theorem pLookup_pset_self : ∀ (m : PMap) (k v : Json),
    pLookup (pset m k v) k = some v
  | [], k, v => by simp [pLookup, pset]
  | (k₀, v₀) :: rest, k, v => by
    by_cases h : k₀ = k <;> simp [pLookup, pset, h, pLookup_pset_self rest k v]

theorem pLookup_pset_ne : ∀ (m : PMap) (k k' v : Json), k ≠ k' →
    pLookup (pset m k v) k' = pLookup m k'
  | [], k, k', v, h => by simp [pLookup, pset, h]
  | (k₀, v₀) :: rest, k, k', v, h => by
    by_cases h0 : k₀ = k
    · subst h0; simp [pLookup, pset, h]
    · simp only [pset, if_neg h0, pLookup]
      by_cases h1 : k₀ = k' <;> simp [h1, pLookup_pset_ne rest k k' v h]

theorem mem_pset : ∀ (m : PMap) (k v : Json) (p : Json × Json),
    p ∈ pset m k v → p ∈ m ∨ p = (k, v)
  | [], k, v, p, h => by simpa [pset] using h
  | (k₀, v₀) :: rest, k, v, p, h => by
    by_cases h0 : k₀ = k
    · subst h0
      rw [pset, if_pos rfl] at h
      rcases List.mem_cons.mp h with rfl | h
      · right; rfl
      · left; exact List.mem_cons_of_mem _ h
    · rw [pset, if_neg h0] at h
      rcases List.mem_cons.mp h with rfl | h
      · left; exact List.mem_cons_self _ _
      · rcases mem_pset rest k v p h with h1 | h1
        · left; exact List.mem_cons_of_mem _ h1
        · right; exact h1

theorem pHasKey_exists : ∀ (m : PMap) (k : Json), pHasKey m k = true →
    ∃ v, (k, v) ∈ m
  | [], k, h => by simp [pHasKey] at h
  | (k₀, v₀) :: rest, k, h => by
    by_cases h0 : k₀ = k
    · exact ⟨v₀, by simp [h0]⟩
    · simp only [pHasKey, h0, decide_False, Bool.false_or] at h
      obtain ⟨v, hv⟩ := pHasKey_exists rest k h
      exact ⟨v, List.mem_cons_of_mem _ hv⟩

/-- `srcs` contains an entry that (truthily) sets provider key `k`. -/
def SetsKey (srcs : List Json) (k : Json) : Prop :=
  ∃ src ∈ srcs, (srcKey src).truthy ∧ srcKey src = k

theorem buildSources_append : ∀ (srcs : List Json) (m n : PMap),
    (∀ src ∈ srcs, (srcKey src).truthy → pHasKey m (srcKey src) = false) →
    buildSources (m ++ n) srcs = m ++ buildSources n srcs
  | [], m, n, _ => rfl
  | src :: rest, m, n, h => by
    by_cases ht : (srcKey src).truthy
    · simp only [buildSources, if_pos ht]
      rw [pset_append m n _ _ (h src (List.mem_cons_self _ _) ht)]
      exact buildSources_append rest m _ fun s hs hts => h s (List.mem_cons_of_mem _ hs) hts
    · simp only [buildSources, if_neg ht]
      exact buildSources_append rest m n fun s hs hts => h s (List.mem_cons_of_mem _ hs) hts

theorem pLookup_buildSources_not_sets : ∀ (srcs : List Json) (m : PMap) (k : Json),
    ¬ SetsKey srcs k → pLookup (buildSources m srcs) k = pLookup m k
  | [], m, k, _ => rfl
  | src :: rest, m, k, h => by
    have hrest : ¬ SetsKey rest k := fun ⟨s, hs, hts, hks⟩ =>
      h ⟨s, List.mem_cons_of_mem _ hs, hts, hks⟩
    by_cases ht : (srcKey src).truthy
    · have hne : srcKey src ≠ k := fun hk => h ⟨src, List.mem_cons_self _ _, ht, hk⟩
      simp only [buildSources, if_pos ht]
      rw [pLookup_buildSources_not_sets rest _ k hrest, pLookup_pset_ne _ _ _ _ hne]
    · simp only [buildSources, if_neg ht]
      exact pLookup_buildSources_not_sets rest m k hrest

theorem pHasKey_buildSources_mono : ∀ (srcs : List Json) (m : PMap) (k : Json),
    pHasKey m k = true → pHasKey (buildSources m srcs) k = true
  | [], m, k, h => h
  | src :: rest, m, k, h => by
    by_cases ht : (srcKey src).truthy
    · simp only [buildSources, if_pos ht]
      exact pHasKey_buildSources_mono rest _ k (by rw [pHasKey_pset]; simp [h])
    · simp only [buildSources, if_neg ht]
      exact pHasKey_buildSources_mono rest m k h

theorem buildSources_set_irrel : ∀ (srcs : List Json) (m : PMap) (k v : Json),
    pHasKey m k = true → SetsKey srcs k →
    buildSources (pset m k v) srcs = buildSources m srcs
  | [], m, k, v, _, hsets => absurd hsets (by simp [SetsKey])
  | src :: rest, m, k, v, hm, hsets => by
    by_cases ht : (srcKey src).truthy
    · by_cases hk : srcKey src = k
      · simp only [buildSources, if_pos ht]
        rw [hk, pset_pset_same]
      · have hrest : SetsKey rest k := by
          rcases hsets with ⟨s, hs, hts, hks⟩
          rcases List.mem_cons.mp hs with rfl | hs'
          · exact absurd hks hk
          · exact ⟨s, hs', hts, hks⟩
        simp only [buildSources, if_pos ht]
        rw [pset_comm m k (srcKey src) v src (fun h => hk h.symm) hm]
        exact buildSources_set_irrel rest _ k v
          (by rw [pHasKey_pset]; simp [hm]) hrest
    · have hrest : SetsKey rest k := by
        rcases hsets with ⟨s, hs, hts, hks⟩
        rcases List.mem_cons.mp hs with rfl | hs'
        · exact absurd hts (by simpa using ht)
        · exact ⟨s, hs', hts, hks⟩
      simp only [buildSources, if_neg ht]
      exact buildSources_set_irrel rest m k v hm hrest

theorem buildSources_idem : ∀ (srcs : List Json) (m : PMap),
    buildSources (buildSources m srcs) srcs = buildSources m srcs
  | [], m => rfl
  | src :: rest, m => by
    by_cases ht : (srcKey src).truthy
    · simp only [buildSources, if_pos ht]
      set k := srcKey src with hk
      set B := pset m k src with hB
      by_cases hsets : SetsKey rest k
      · have hkey : pHasKey (buildSources B rest) k = true := by
          apply pHasKey_buildSources_mono
          rw [hB, pHasKey_pset]; simp
        rw [buildSources_set_irrel rest _ k src hkey hsets]
        exact buildSources_idem rest B
      · have hlook : pLookup (buildSources B rest) k = some src := by
          rw [pLookup_buildSources_not_sets rest B k hsets, hB, pLookup_pset_self]
        rw [pset_noop _ k src hlook]
        exact buildSources_idem rest B
    · simp only [buildSources, if_neg ht]
      exact buildSources_idem rest m

/-- Invariant of provider maps built by `buildSources`: keys are pairwise
distinct, and every entry's key is its value's (truthy) provider tag. -/
def Canon (m : PMap) : Prop :=
  m.Pairwise (fun a b => a.1 ≠ b.1) ∧ ∀ p ∈ m, p.1 = srcKey p.2 ∧ (srcKey p.2).truthy

theorem Canon_nil : Canon [] := ⟨List.Pairwise.nil, by simp⟩

theorem Canon_tail {p : Json × Json} {rest : PMap} (h : Canon (p :: rest)) :
    Canon rest :=
  ⟨(List.pairwise_cons.mp h.1).2, fun q hq => h.2 q (List.mem_cons_of_mem _ hq)⟩

theorem Canon_pset : ∀ (m : PMap) (v : Json), Canon m → (srcKey v).truthy →
    Canon (pset m (srcKey v) v)
  | [], v, _, ht => by
    refine ⟨?_, ?_⟩
    · show List.Pairwise _ [(srcKey v, v)]
      simp
    · intro p hp
      rcases List.mem_singleton.mp hp with rfl
      exact ⟨rfl, ht⟩
  | (k₀, v₀) :: rest, v, h, ht => by
    by_cases h0 : k₀ = srcKey v
    · refine ⟨?_, ?_⟩
      · rw [pset, if_pos h0, List.pairwise_cons]
        exact ⟨(List.pairwise_cons.mp h.1).1, (List.pairwise_cons.mp h.1).2⟩
      · intro p hp
        rw [pset, if_pos h0] at hp
        rcases List.mem_cons.mp hp with rfl | hp
        · exact ⟨h0, ht⟩
        · exact h.2 p (List.mem_cons_of_mem _ hp)
    · have ih := Canon_pset rest v (Canon_tail h) ht
      refine ⟨?_, ?_⟩
      · rw [pset, if_neg h0, List.pairwise_cons]
        refine ⟨?_, ih.1⟩
        intro p hp
        rcases mem_pset rest (srcKey v) v p hp with hmem | rfl
        · exact (List.pairwise_cons.mp h.1).1 p hmem
        · exact h0
      · intro p hp
        rw [pset, if_neg h0] at hp
        rcases List.mem_cons.mp hp with rfl | hp
        · exact h.2 (k₀, v₀) (List.mem_cons_self _ _)
        · exact ih.2 p hp

theorem Canon_buildSources : ∀ (srcs : List Json) (m : PMap), Canon m →
    Canon (buildSources m srcs)
  | [], m, h => h
  | src :: rest, m, h => by
    by_cases ht : (srcKey src).truthy
    · simp only [buildSources, if_pos ht]
      exact Canon_buildSources rest _ (Canon_pset m src h ht)
    · simp only [buildSources, if_neg ht]
      exact Canon_buildSources rest m h

theorem buildSources_rebuild : ∀ (m : PMap), Canon m →
    buildSources [] (m.map Prod.snd) = m
  | [], _ => rfl
  | (k, v) :: rest, h => by
    obtain ⟨hkey, htr⟩ := h.2 (k, v) (List.mem_cons_self _ _)
    have hkey' : srcKey v = k := hkey.symm
    have hne : ∀ src ∈ rest.map Prod.snd, (srcKey src).truthy →
        pHasKey [(k, v)] (srcKey src) = false := by
      intro src hsrc _
      obtain ⟨p, hp, rfl⟩ := List.mem_map.mp hsrc
      obtain ⟨hpk, _⟩ := h.2 p (List.mem_cons_of_mem _ hp)
      have hnep : k ≠ p.1 := (List.pairwise_cons.mp h.1).1 p hp
      simp [pHasKey, hpk ▸ hnep]
    calc buildSources [] (((k, v) :: rest).map Prod.snd)
        = buildSources (pset [] (srcKey v) v) (rest.map Prod.snd) := by
          simp only [List.map_cons, buildSources]
          rw [if_pos (hkey' ▸ htr)]
      _ = buildSources ([(k, v)] ++ []) (rest.map Prod.snd) := by
          simp [pset, hkey']
      _ = [(k, v)] ++ buildSources [] (rest.map Prod.snd) :=
          buildSources_append _ _ _ hne
      _ = (k, v) :: rest := by
          rw [buildSources_rebuild rest (Canon_tail h)]; rfl

theorem mem_buildSources : ∀ (srcs : List Json) (m : PMap) (p : Json × Json),
    p ∈ buildSources m srcs → p ∈ m ∨ (p.2 ∈ srcs ∧ p.1 = srcKey p.2)
  | [], m, p, h => Or.inl h
  | src :: rest, m, p, h => by
    by_cases ht : (srcKey src).truthy
    · simp only [buildSources, if_pos ht] at h
      rcases mem_buildSources rest _ p h with hmem | ⟨hmem, hkey⟩
      · rcases mem_pset m (srcKey src) src p hmem with hm | rfl
        · exact Or.inl hm
        · exact Or.inr ⟨List.mem_cons_self _ _, rfl⟩
      · exact Or.inr ⟨List.mem_cons_of_mem _ hmem, hkey⟩
    · simp only [buildSources, if_neg ht] at h
      rcases mem_buildSources rest m p h with hm | ⟨hmem, hkey⟩
      · exact Or.inl hm
      · exact Or.inr ⟨List.mem_cons_of_mem _ hmem, hkey⟩

end PMapLemmas

/-! ## `merge_normalized` (commons/normalized_events.py, lines 65-81) -/

/-- The three first-writer-wins fields of `merge_normalized`. -/
def stickyFields : List String := ["home", "away", "kickoff"]

/-- One iteration of the `for field in ("home", "away", "kickoff")` loop:
`if incoming.get(field): merged[field] = merged.get(field) or incoming[field]`. -/
def stickyStep (incoming m : Dict) (field : String) : Dict :=
  if (dget incoming field).truthy then
    dset m field ((dget m field).pyOr (dget incoming field))
  else m

/-- The whole sticky-field loop of `merge_normalized`. -/
def mergeSticky (incoming merged : Dict) : Dict :=
  stickyFields.foldl (stickyStep incoming) merged

/-- `dict(existing) if existing else {}`. -/
def mergeBase : Option Dict → Dict
  | some d => d
  | none => []

/-- `merge_normalized(existing, incoming)` from
`commons/normalized_events.py`.  The two `datetime.now(tz=UTC)` calls on
lines 79-80 are abstracted as the explicit parameters `nowUpd` and
`nowCreated`. -/
def merge_normalized (nowUpd nowCreated : Json) (existing : Option Dict)
    (incoming : Dict) : Dict :=
  let merged := mergeBase existing
  let merged := dsetdefault merged "eventId" (dget incoming "eventId")
  let merged := dsetdefault merged "normalizedId" (dget incoming "normalizedId")
  let merged := mergeSticky incoming merged
  let srcMap := buildSources [] (dget merged "sources").getArr
  let srcMap := buildSources srcMap (dget incoming "sources").getArr
  let merged := dset merged "sources" (jarr (srcMap.map Prod.snd))
  let merged := dset merged "updatedAt" ((dget incoming "updatedAt").pyOr nowUpd)
  let merged := dsetdefault merged "createdAt" ((dget incoming "createdAt").pyOr nowCreated)
  merged

section MergeLemmas

@[simp] theorem getArr_jarr (xs : List Json) : (jarr xs).getArr = xs := by
  simp [jarr, Json.getArr]

theorem truthy_pyOr (a b : Json) : (a.pyOr b).truthy = (a.truthy || b.truthy) := by
  unfold Json.pyOr
  by_cases h : a.truthy <;> simp [h]

theorem pyOr_of_truthy {a : Json} (b : Json) (h : a.truthy = true) : a.pyOr b = a := by
  simp [Json.pyOr, h]

theorem pyOr_of_not_truthy {a : Json} (b : Json) (h : a.truthy = false) :
    a.pyOr b = b := by
  simp [Json.pyOr, h]

theorem mergeSticky_eq (incoming m : Dict) :
    mergeSticky incoming m =
      stickyStep incoming (stickyStep incoming (stickyStep incoming m "home")
        "away") "kickoff" := rfl

theorem dget_stickyStep_ne (incoming m : Dict) {f k : String} (h : f ≠ k) :
    dget (stickyStep incoming m f) k = dget m k := by
  unfold stickyStep
  by_cases ht : (dget incoming f).truthy <;> simp [ht, dget_dset_ne m f k _ h]

theorem hasKey_stickyStep_ne (incoming m : Dict) {f k : String} (h : f ≠ k) :
    hasKey (stickyStep incoming m f) k = hasKey m k := by
  unfold stickyStep
  by_cases ht : (dget incoming f).truthy <;> simp [ht, hasKey_dset, h]

theorem dget_stickyStep_self (incoming m : Dict) (f : String) :
    dget (stickyStep incoming m f) f =
      if (dget incoming f).truthy then (dget m f).pyOr (dget incoming f)
      else dget m f := by
  unfold stickyStep
  by_cases ht : (dget incoming f).truthy <;> simp [ht, dget_dset_self]

theorem hasKey_stickyStep_self (incoming m : Dict) (f : String) :
    hasKey (stickyStep incoming m f) f =
      if (dget incoming f).truthy then true else hasKey m f := by
  unfold stickyStep
  by_cases ht : (dget incoming f).truthy <;> simp [ht, hasKey_dset]

theorem dget_mergeSticky_ne (incoming m : Dict) {k : String}
    (h1 : k ≠ "home") (h2 : k ≠ "away") (h3 : k ≠ "kickoff") :
    dget (mergeSticky incoming m) k = dget m k := by
  rw [mergeSticky_eq,
    dget_stickyStep_ne incoming _ (Ne.symm h3),
    dget_stickyStep_ne incoming _ (Ne.symm h2),
    dget_stickyStep_ne incoming _ (Ne.symm h1)]

theorem hasKey_mergeSticky_ne (incoming m : Dict) {k : String}
    (h1 : k ≠ "home") (h2 : k ≠ "away") (h3 : k ≠ "kickoff") :
    hasKey (mergeSticky incoming m) k = hasKey m k := by
  rw [mergeSticky_eq,
    hasKey_stickyStep_ne incoming _ (Ne.symm h3),
    hasKey_stickyStep_ne incoming _ (Ne.symm h2),
    hasKey_stickyStep_ne incoming _ (Ne.symm h1)]

theorem dget_mergeSticky_self (incoming m : Dict) {f : String}
    (hf : f ∈ stickyFields) :
    dget (mergeSticky incoming m) f =
      if (dget incoming f).truthy then (dget m f).pyOr (dget incoming f)
      else dget m f := by
  simp only [stickyFields, List.mem_cons, List.not_mem_nil, or_false] at hf
  rcases hf with rfl | rfl | rfl
  · rw [mergeSticky_eq, dget_stickyStep_ne incoming _ (by decide),
      dget_stickyStep_ne incoming _ (by decide), dget_stickyStep_self]
  · rw [mergeSticky_eq, dget_stickyStep_ne incoming _ (by decide),
      dget_stickyStep_self, dget_stickyStep_ne incoming _ (by decide)]
  · rw [mergeSticky_eq, dget_stickyStep_self,
      dget_stickyStep_ne incoming _ (by decide),
      dget_stickyStep_ne incoming _ (by decide)]

theorem hasKey_mergeSticky_self (incoming m : Dict) {f : String}
    (hf : f ∈ stickyFields) (ht : (dget incoming f).truthy = true) :
    hasKey (mergeSticky incoming m) f = true := by
  simp only [stickyFields, List.mem_cons, List.not_mem_nil, or_false] at hf
  rcases hf with rfl | rfl | rfl
  · rw [mergeSticky_eq, hasKey_stickyStep_ne incoming _ (by decide),
      hasKey_stickyStep_ne incoming _ (by decide), hasKey_stickyStep_self]
    simp [ht]
  · rw [mergeSticky_eq, hasKey_stickyStep_ne incoming _ (by decide),
      hasKey_stickyStep_self]
    simp [ht]
  · rw [mergeSticky_eq, hasKey_stickyStep_self]
    simp [ht]

theorem mergeSticky_noop (incoming m : Dict)
    (h : ∀ f ∈ stickyFields, (dget incoming f).truthy = true →
      hasKey m f = true ∧ (dget m f).truthy = true) :
    mergeSticky incoming m = m := by
  have step : ∀ f ∈ stickyFields, stickyStep incoming m f = m := by
    intro f hf
    unfold stickyStep
    by_cases ht : (dget incoming f).truthy
    · obtain ⟨hk, htr⟩ := h f hf ht
      rw [if_pos ht, pyOr_of_truthy _ htr, dset_dget_self m f hk]
    · rw [if_neg ht]
  rw [mergeSticky_eq, step "home" (by simp [stickyFields]),
    step "away" (by simp [stickyFields]), step "kickoff" (by simp [stickyFields])]

end MergeLemmas

section MergeFacts

variable (nu nc : Json) (ex : Option Dict) (inc : Dict)

theorem merge_hasKey_eventId :
    hasKey (merge_normalized nu nc ex inc) "eventId" = true := by
  unfold merge_normalized
  rw [hasKey_dsetdefault_ne _ (by decide), hasKey_dset, hasKey_dset,
    hasKey_mergeSticky_ne _ _ (by decide) (by decide) (by decide),
    hasKey_dsetdefault_ne _ (by decide), hasKey_dsetdefault_self]
  simp

theorem merge_hasKey_normalizedId :
    hasKey (merge_normalized nu nc ex inc) "normalizedId" = true := by
  unfold merge_normalized
  rw [hasKey_dsetdefault_ne _ (by decide), hasKey_dset, hasKey_dset,
    hasKey_mergeSticky_ne _ _ (by decide) (by decide) (by decide),
    hasKey_dsetdefault_self]
  simp

theorem merge_hasKey_createdAt :
    hasKey (merge_normalized nu nc ex inc) "createdAt" = true := by
  unfold merge_normalized
  rw [hasKey_dsetdefault_self]

theorem merge_hasKey_updatedAt :
    hasKey (merge_normalized nu nc ex inc) "updatedAt" = true := by
  unfold merge_normalized
  rw [hasKey_dsetdefault_ne _ (by decide), hasKey_dset]
  simp

theorem merge_hasKey_sources :
    hasKey (merge_normalized nu nc ex inc) "sources" = true := by
  unfold merge_normalized
  rw [hasKey_dsetdefault_ne _ (by decide), hasKey_dset, hasKey_dset]
  simp

theorem merge_dget_updatedAt :
    dget (merge_normalized nu nc ex inc) "updatedAt" =
      (dget inc "updatedAt").pyOr nu := by
  unfold merge_normalized
  rw [dget_dsetdefault_ne _ (by decide), dget_dset_self]

theorem merge_dget_sources :
    dget (merge_normalized nu nc ex inc) "sources" =
      jarr ((buildSources
        (buildSources [] (dget (mergeBase ex) "sources").getArr)
        (dget inc "sources").getArr).map Prod.snd) := by
  unfold merge_normalized
  rw [dget_dsetdefault_ne _ (by decide), dget_dset_ne _ _ _ _ (by decide),
    dget_dset_self,
    dget_mergeSticky_ne _ _ (by decide) (by decide) (by decide),
    dget_dsetdefault_ne _ (by decide), dget_dsetdefault_ne _ (by decide)]

theorem merge_dget_sticky {f : String} (hf : f ∈ stickyFields) :
    dget (merge_normalized nu nc ex inc) f =
      if (dget inc f).truthy then (dget (mergeBase ex) f).pyOr (dget inc f)
      else dget (mergeBase ex) f := by
  simp only [stickyFields, List.mem_cons, List.not_mem_nil, or_false] at hf
  rcases hf with rfl | rfl | rfl <;>
  · unfold merge_normalized
    rw [dget_dsetdefault_ne _ (by decide), dget_dset_ne _ _ _ _ (by decide),
      dget_dset_ne _ _ _ _ (by decide),
      dget_mergeSticky_self _ _ (by simp [stickyFields]),
      dget_dsetdefault_ne _ (by decide), dget_dsetdefault_ne _ (by decide)]

theorem merge_hasKey_sticky {f : String} (hf : f ∈ stickyFields)
    (ht : (dget inc f).truthy = true) :
    hasKey (merge_normalized nu nc ex inc) f = true := by
  simp only [stickyFields, List.mem_cons, List.not_mem_nil, or_false] at hf
  rcases hf with rfl | rfl | rfl <;>
  · unfold merge_normalized
    rw [hasKey_dsetdefault_ne _ (by decide), hasKey_dset, hasKey_dset,
      hasKey_mergeSticky_self _ _ (by simp [stickyFields]) ht]
    simp

end MergeFacts

/-- C2: with `incoming.updatedAt` set (truthy), re-merging the same
incoming document into the already-merged result reproduces it exactly:
every field — `eventId`, `normalizedId`, `home`, `away`, `kickoff`,
`sources`, `createdAt`, `updatedAt`, and anything else the stored document
carries — is unchanged by the repeat merge, whatever wall-clock values the
two merges observe. -/
theorem merge_normalized_idempotent
    (nu1 nc1 nu2 nc2 : Json) (E : Option Dict) (D : Dict)
    (h : (dget D "updatedAt").truthy = true) :
    merge_normalized nu2 nc2 (some (merge_normalized nu1 nc1 E D)) D =
      merge_normalized nu1 nc1 E D := by
  set M1 := merge_normalized nu1 nc1 E D with hM1
  have hEv := merge_hasKey_eventId nu1 nc1 E D
  have hNo := merge_hasKey_normalizedId nu1 nc1 E D
  have hCr := merge_hasKey_createdAt nu1 nc1 E D
  have hUpK := merge_hasKey_updatedAt nu1 nc1 E D
  have hSrcK := merge_hasKey_sources nu1 nc1 E D
  have hSrcV := merge_dget_sources nu1 nc1 E D
  have hUpV : dget M1 "updatedAt" = dget D "updatedAt" := by
    rw [hM1, merge_dget_updatedAt, pyOr_of_truthy _ h]
  rw [← hM1] at hEv hNo hCr hUpK hSrcK hSrcV
  have hSticky : ∀ f ∈ stickyFields, (dget D f).truthy = true →
      hasKey M1 f = true ∧ (dget M1 f).truthy = true := by
    intro f hf ht
    refine ⟨?_, ?_⟩
    · rw [hM1]; exact merge_hasKey_sticky nu1 nc1 E D hf ht
    · rw [hM1, merge_dget_sticky nu1 nc1 E D hf, if_pos ht, truthy_pyOr]
      simp [ht]
  unfold merge_normalized
  simp only [mergeBase]
  rw [dsetdefault_of_hasKey _ hEv, dsetdefault_of_hasKey _ hNo,
    mergeSticky_noop D M1 hSticky, hSrcV, getArr_jarr,
    buildSources_rebuild _ (Canon_buildSources _ _ (Canon_buildSources _ _ Canon_nil)),
    buildSources_idem, ← hSrcV, dset_dget_self M1 "sources" hSrcK,
    pyOr_of_truthy nu2 h, ← hUpV, dset_dget_self M1 "updatedAt" hUpK,
    dsetdefault_of_hasKey _ hCr]

theorem buildSources_disjoint {srcs : List Json} {m : PMap}
    (h : ∀ src ∈ srcs, (srcKey src).truthy = true →
      pHasKey m (srcKey src) = false) :
    buildSources m srcs = m ++ buildSources [] srcs := by
  have := buildSources_append srcs m [] h
  simpa using this

@[simp] theorem truthy_null : Json.truthy .null = false := rfl

@[simp] theorem getArr_null : Json.getArr .null = [] := rfl

/-- C1: merging two provider documents with disjoint provider tags into an
absent (empty) existing document yields, in either order, the same
provider-keyed `sources` content (the lists are permutations of each
other); the `home`/`away`/`kickoff` fields hold the first non-empty value
merged (first-writer-wins), and a later merge never overwrites a populated
sticky field. -/
theorem merge_commutative_except_sticky
    (A B : Dict) (nu1 nc1 nu2 nc2 nv1 nd1 nv2 nd2 : Json)
    (hdisj : ∀ sa ∈ (dget A "sources").getArr, ∀ sb ∈ (dget B "sources").getArr,
      (srcKey sa).truthy = true → (srcKey sb).truthy = true →
      srcKey sa ≠ srcKey sb) :
    ((dget (merge_normalized nu2 nc2
        (some (merge_normalized nu1 nc1 none A)) B) "sources").getArr).Perm
      ((dget (merge_normalized nv2 nd2
        (some (merge_normalized nv1 nd1 none B)) A) "sources").getArr)
    ∧ (∀ f ∈ stickyFields,
        dget (merge_normalized nu2 nc2
          (some (merge_normalized nu1 nc1 none A)) B) f =
          if (dget A f).truthy then dget A f
          else if (dget B f).truthy then dget B f else Json.null)
    ∧ (∀ (E D : Dict) (nu nc : Json), ∀ f ∈ stickyFields,
        (dget E f).truthy = true →
        dget (merge_normalized nu nc (some E) D) f = dget E f) := by
  refine ⟨?_, ?_, ?_⟩
  · -- sources commute up to permutation
    set SA := buildSources [] (dget A "sources").getArr with hSA
    set SB := buildSources [] (dget B "sources").getArr with hSB
    have hdisjB : ∀ src ∈ (dget B "sources").getArr,
        (srcKey src).truthy = true → pHasKey SA (srcKey src) = false := by
      intro src hs ht
      by_contra hfalse
      rw [Bool.not_eq_false] at hfalse
      obtain ⟨v, hv⟩ := pHasKey_exists _ _ hfalse
      rcases mem_buildSources _ _ _ (hSA ▸ hv) with hmem | ⟨hmemA, hkey⟩
      · simp at hmem
      · have htv : (srcKey v).truthy = true := hkey ▸ ht
        exact (hdisj v hmemA src hs htv ht) hkey.symm
    have hdisjA : ∀ src ∈ (dget A "sources").getArr,
        (srcKey src).truthy = true → pHasKey SB (srcKey src) = false := by
      intro src hs ht
      by_contra hfalse
      rw [Bool.not_eq_false] at hfalse
      obtain ⟨v, hv⟩ := pHasKey_exists _ _ hfalse
      rcases mem_buildSources _ _ _ (hSB ▸ hv) with hmem | ⟨hmemB, hkey⟩
      · simp at hmem
      · have htv : (srcKey v).truthy = true := hkey ▸ ht
        exact (hdisj src hs v hmemB ht htv) hkey.symm.symm
    have hA1 : dget (merge_normalized nu1 nc1 none A) "sources" =
        jarr (SA.map Prod.snd) := by
      rw [merge_dget_sources]
      simp only [mergeBase, dget_nil, getArr_null, buildSources]
    have hB1 : dget (merge_normalized nv1 nd1 none B) "sources" =
        jarr (SB.map Prod.snd) := by
      rw [merge_dget_sources]
      simp only [mergeBase, dget_nil, getArr_null, buildSources]
    have hAB : dget (merge_normalized nu2 nc2
        (some (merge_normalized nu1 nc1 none A)) B) "sources" =
        jarr (SA.map Prod.snd ++ SB.map Prod.snd) := by
      rw [merge_dget_sources]
      simp only [mergeBase]
      rw [hA1, getArr_jarr,
        buildSources_rebuild SA (hSA ▸ Canon_buildSources _ _ Canon_nil),
        buildSources_disjoint hdisjB, ← hSB, List.map_append]
    have hBA : dget (merge_normalized nv2 nd2
        (some (merge_normalized nv1 nd1 none B)) A) "sources" =
        jarr (SB.map Prod.snd ++ SA.map Prod.snd) := by
      rw [merge_dget_sources]
      simp only [mergeBase]
      rw [hB1, getArr_jarr,
        buildSources_rebuild SB (hSB ▸ Canon_buildSources _ _ Canon_nil),
        buildSources_disjoint hdisjA, ← hSA, List.map_append]
    rw [hAB, hBA, getArr_jarr, getArr_jarr]
    exact List.perm_append_comm
  · -- sticky fields: first non-empty writer wins
    intro f hf
    rw [merge_dget_sticky nu2 nc2 (some (merge_normalized nu1 nc1 none A)) B hf]
    simp only [mergeBase]
    rw [merge_dget_sticky nu1 nc1 none A hf]
    simp only [mergeBase, dget_nil]
    by_cases hA : (dget A f).truthy <;> by_cases hB : (dget B f).truthy <;>
      simp [hA, hB, Json.pyOr]
  · -- a later merge never overwrites a populated sticky field
    intro E D nu nc f hf hE
    rw [merge_dget_sticky nu nc (some E) D hf]
    simp only [mergeBase]
    by_cases hD : (dget D f).truthy <;> simp [hD, pyOr_of_truthy _ hE]

theorem merge_commutative_except_sticky_witness :
    (∀ sa ∈ (dget [("home", Json.str "T1"),
        ("sources", jarr [jobj [("provider", Json.str "sb"),
          ("price", Json.num (19/10))]])] "sources").getArr,
      ∀ sb ∈ (dget [("sources", jarr [jobj [("provider", Json.str "su")]])]
          "sources").getArr,
      (srcKey sa).truthy = true → (srcKey sb).truthy = true →
      srcKey sa ≠ srcKey sb)
    ∧ ((dget (merge_normalized .null .null
        (some (merge_normalized .null .null none [("home", Json.str "T1"),
          ("sources", jarr [jobj [("provider", Json.str "sb"),
            ("price", Json.num (19/10))]])]))
        [("sources", jarr [jobj [("provider", Json.str "su")]])])
        "sources").getArr).Perm
      ((dget (merge_normalized .null .null
        (some (merge_normalized .null .null none
          [("sources", jarr [jobj [("provider", Json.str "su")]])]))
        [("home", Json.str "T1"),
          ("sources", jarr [jobj [("provider", Json.str "sb"),
            ("price", Json.num (19/10))]])]) "sources").getArr) :=
  ⟨by decide,
    (merge_commutative_except_sticky _ _
      .null .null .null .null .null .null .null .null (by decide)).1⟩

theorem merge_normalized_idempotent_witness :
    (dget [("updatedAt", Json.str "2025-01-01T00:00:00Z"),
      ("normalizedId", Json.str "X"),
      ("sources", jarr [jobj [("provider", Json.str "sb"),
        ("price", Json.num (19/10))]])] "updatedAt").truthy = true
    ∧ merge_normalized .null .null
        (some (merge_normalized .null .null none
          [("updatedAt", Json.str "2025-01-01T00:00:00Z"),
            ("normalizedId", Json.str "X"),
            ("sources", jarr [jobj [("provider", Json.str "sb"),
              ("price", Json.num (19/10))]])]))
        [("updatedAt", Json.str "2025-01-01T00:00:00Z"),
          ("normalizedId", Json.str "X"),
          ("sources", jarr [jobj [("provider", Json.str "sb"),
            ("price", Json.num (19/10))]])] =
      merge_normalized .null .null none
        [("updatedAt", Json.str "2025-01-01T00:00:00Z"),
          ("normalizedId", Json.str "X"),
          ("sources", jarr [jobj [("provider", Json.str "sb"),
            ("price", Json.num (19/10))]])] :=
  ⟨by decide,
    merge_normalized_idempotent .null .null .null .null none _ (by decide)⟩

/-! ## `upsert_normalized` key computation
(commons/normalized_events.py, lines 94-119) -/

/-- Python `str()` of a JSON-ish value, as applied to ids and lookup keys.
Scalar renderings follow Python (`str(None) = "None"`); ids are scalars in
these payloads, so container renderings are schematic. -/
def pyStr : Json → String
  | .null => "None"
  | .bool b => if b then "True" else "False"
  | .num q => toString q
  | .str s => s
  | .arr _ => "[...]"
  | .obj _ => "\x7b...\x7d"

/-- The key expression `doc.get("normalizedId") or doc.get("eventId")`
of `upsert_normalized` (line 105). -/
def upsertKey (doc : Json) : Json :=
  (doc.jget "normalizedId").pyOr (doc.jget "eventId")

/-- Line 105: `norm_ids = [doc.get("normalizedId") or doc.get("eventId")
for doc in documents if doc.get("normalizedId") or doc.get("eventId")]` —
note the list is filtered, so it can be shorter than `documents`. -/
def norm_ids (documents : List Json) : List Json :=
  documents.filterMap
    (fun doc => if (upsertKey doc).truthy then some (upsertKey doc) else none)

/-- Lines 108-113: `for doc, norm_id in zip(documents, norm_ids)` with the
`if not norm_id: continue` guard; each retained pair is the document and
the merge/replace key `upsert_normalized` uses for it. -/
def upsert_assignments (documents : List Json) : List (Json × Json) :=
  (documents.zip (norm_ids documents)).filterMap
    (fun p => if p.2.truthy then some p else none)

/-- Lines 111-113: the `ReplaceOne` operations produced by
`upsert_normalized`, as (filter key, replacement document) pairs.  The
collection lookup `existing_map.get(str(norm_id))` is abstracted as the
`existing` parameter; the wall clock as `nu`/`nc`. -/
def upsert_ops (existing : String → Option Dict) (nu nc : Json)
    (documents : List Json) : List (Json × Dict) :=
  (upsert_assignments documents).map
    (fun p => (p.2, merge_normalized nu nc (existing (pyStr p.2)) p.1.jfields))

/-- C4, evaluated at the failing input: with a first document that has
neither `normalizedId` nor `eventId` and a second document keyed `"X"`,
the zip of the unfiltered `documents` against the filtered `norm_ids`
pairs the id-less first document with the second document's key `"X"`,
and the second document is never processed at all — the claimed
"each document is merged under its own key, id-less documents are
skipped" fails. -/
theorem upsert_zip_misalignment :
    norm_ids [jobj [("home", Json.str "A")],
      jobj [("normalizedId", Json.str "X")]] = [Json.str "X"]
    ∧ upsert_assignments [jobj [("home", Json.str "A")],
        jobj [("normalizedId", Json.str "X")]] =
      [(jobj [("home", Json.str "A")], Json.str "X")] := by decide

/-! ## `prune_event_raw` (superbetraw.py, lines 105-131) -/

/-- `k in d` on a JSON value (`"offerStateId" in odd`). -/
def jhasKey : Json → String → Bool
  | .obj fs, k => hasKey fs.toList k
  | _, _ => false

/-- Python membership of a JSON value in a market-id allow list
(`odd.get("marketId") in allowed_markets`): only a number can equal an id. -/
def jmemNum (v : Json) (allowed : List ℚ) : Bool :=
  match v with
  | .num q => allowed.contains q
  | _ => false

/-- `prune_event_raw(raw_event, allowed_markets)`: drops the duplicated
`markets` block, keeps only odds whose `marketId` is in the allow list,
and slims each kept odd (no fallback when nothing matches). -/
def prune_event_raw (raw_event : Json) (allowed_markets : List ℚ) : Json :=
  let fields := dpop raw_event.jfields "markets"
  let odds := ((dget fields "odds").pyOr (jarr [])).getArr
  let filtered_odds := odds.filterMap (fun odd =>
    if !(jmemNum (odd.jget "marketId") allowed_markets) then none
    else
      let slim : Dict :=
        [("marketId", odd.jget "marketId"),
         ("marketName", odd.jget "marketName"),
         ("outcomeId", odd.jget "outcomeId"),
         ("name", odd.jget "name"),
         ("code", odd.jget "code"),
         ("price", odd.jget "price"),
         ("status", odd.jget "status")]
      let slim := if jhasKey odd "offerStateId"
        then slim ++ [("offerStateId", odd.jget "offerStateId")] else slim
      let slim := if jhasKey odd "marketGroupOrder"
        then slim ++ [("marketGroupOrder", odd.jget "marketGroupOrder")] else slim
      some (jobj slim))
  jobj (dset fields "odds" (jarr filtered_odds))

/-- C6 counterexample: the superbet reducer has no keep-all fallback.  An
event with exactly one odd whose `marketId` (999) is outside the allow
list `[547]` comes out with an empty `odds` list although the input had
one market — refuting "the reduced market list is never empty when the
input market list was non-empty". -/
theorem prune_event_raw_empties_nonempty_input :
    (((jobj [("eventId", Json.num 11),
        ("odds", jarr [jobj [("marketId", Json.num 999),
          ("price", Json.num (37/20))]])]).jget "odds").getArr).length = 1
    ∧ (((prune_event_raw (jobj [("eventId", Json.num 11),
        ("odds", jarr [jobj [("marketId", Json.num 999),
          ("price", Json.num (37/20))]])]) [547]).jget "odds").getArr).length
      = 0 := by decide

/-! ## `prune_fixture_raw` (sportingbetraw.py, lines 313-428) -/

def BASE_ALLOWED_MARKET_TYPES : List String :=
  ["3way", "BTTS", "DoubleChance", "DrawNoBet", "Handicap", "2wayHandicap",
   "ThreeWayAndBTTS", "ToWinAndBTTS", "ThreeWayAndOverUnder",
   "DoubleChanceAndOverUnder"]

def PROMO_MARKET_SUBTYPES : List String :=
  ["Build a Bet - Price Boost", "BigOdd", "2Up3wayPricing"]

def TEAM_PARTICIPANT_TYPES : List String :=
  ["HomeTeam", "AwayTeam", "Team", "Competitor"]

/-- Python `str.lower` on the character ranges appearing in these payloads
(ASCII and Latin-1 letters). -/
def pyLowerChar (c : Char) : Char :=
  if ('A' ≤ c ∧ c ≤ 'Z') ∨ (('À' ≤ c ∧ c ≤ 'Þ') ∧ c ≠ '×') then
    Char.ofNat (c.toNat + 32)
  else c

def pyLower (s : String) : String := String.map pyLowerChar s

def listInfix (needle : List Char) : List Char → Bool
  | [] => needle.isEmpty
  | c :: rest => needle.isPrefixOf (c :: rest) || listInfix needle rest

/-- Python `needle in hay` for strings. -/
def strContains (hay needle : String) : Bool := listInfix needle.toList hay.toList

mutual
/-- `json.dumps(x, ensure_ascii=False)`.  Separator and number formatting
are schematic (they render no alphabetic text, so the only consumer — the
case-folded `"boost"` substring test — is unaffected). -/
def dumps : Json → String
  | .null => "null"
  | .bool b => if b then "true" else "false"
  | .num q => toString q
  | .str s => "\"" ++ s ++ "\""
  | .arr xs => "[" ++ dumpsArr xs ++ "]"
  | .obj fs => "\x7b" ++ dumpsObj fs ++ "\x7d"

def dumpsArr : JArr → String
  | .nil => ""
  | .cons x .nil => dumps x
  | .cons x (.cons y ys) => dumps x ++ ", " ++ dumpsArr (.cons y ys)

def dumpsObj : JObj → String
  | .nil => ""
  | .cons k v .nil => "\"" ++ k ++ "\": " ++ dumps v
  | .cons k v (.cons k2 v2 fs) =>
      "\"" ++ k ++ "\": " ++ dumps v ++ ", " ++ dumpsObj (.cons k2 v2 fs)
end

/-- `_market_params(market)`: the `parameters` entries as a dict keyed by
each entry's truthy `key` (parameter keys are strings in these payloads;
non-string keys do not occur). -/
def _market_params (market : Json) : Dict :=
  ((market.jget "parameters").pyOr (jarr [])).getArr.foldl
    (fun params item =>
      match item.jget "key" with
      | .str s => if s ≠ "" then dset params s (item.jget "value") else params
      | _ => params) []

/-- A string-valued JSON value after the `x or ""` idiom ("" for falsy
values; non-string truthy values do not occur where this is applied). -/
def pyStrOrEmpty : Json → String
  | .str s => s
  | _ => ""

def jmemStr (v : Json) (set : List String) : Bool :=
  match v with
  | .str s => set.contains s
  | _ => false

/-- Python `str.strip()` (drop whitespace at both ends). -/
def pyStrip (s : String) : String :=
  String.mk ((s.data.dropWhile Char.isWhitespace).reverse.dropWhile
    Char.isWhitespace).reverse

/-- `_has_boost(market)`: an option whose serialized form mentions "boost"
(case-folded), or a promotional `MarketSubType`. -/
def _has_boost (market : Json) : Bool :=
  if ((market.jget "options").pyOr (jarr [])).getArr.any
      (fun opt => strContains (pyLower (dumps opt)) "boost") then true
  else
    let params := _market_params market
    let subtype := pyStrip
      (pyStrOrEmpty ((dget params "MarketSubType").pyOr (Json.str "")))
    PROMO_MARKET_SUBTYPES.contains subtype

/-- `_should_keep_market(market)` — the allow-set filter. -/
def _should_keep_market (market : Json) : Bool :=
  let params := _market_params market
  let mtype := (dget params "MarketType").pyOr (Json.str "")
  let period := dget params "Period"
  let subtype := (dget params "MarketSubType").pyOr (Json.str "")
  if _has_boost market then true
  else if jmemStr subtype PROMO_MARKET_SUBTYPES then true
  else if !(jmemStr mtype BASE_ALLOWED_MARKET_TYPES) then false
  else if period.truthy = true ∧ period ≠ Json.str "RegularTime" then false
  else if jmemStr mtype ["3way", "Handicap", "2wayHandicap", "DoubleChance",
      "DrawNoBet", "BTTS"] = true ∧
      ¬(dget params "Happening" = Json.null ∨
        dget params "Happening" = Json.str "Goal") then false
  else if mtype = Json.str "3way" ∧ (dget params "RangeValue").truthy then false
  else true

/-- `(x.get("name") or {}).get("value") if isinstance(x.get("name"), dict)
else x.get("name")`. -/
def nameVal (n : Json) : Json :=
  match n with
  | .obj _ => n.jget "value"
  | _ => n

def _slim_options (market : Json) : List Json :=
  ((market.jget "options").pyOr (jarr [])).getArr.map (fun opt =>
    let price := (opt.jget "price").pyOr (jobj [])
    jobj [("id", opt.jget "id"),
          ("name", nameVal (opt.jget "name")),
          ("status", opt.jget "status"),
          ("code", opt.jget "code"),
          ("price", price),
          ("boostedPrice", opt.jget "boostedPrice")])

def _slim_market (market : Json) : Json :=
  let params := _market_params market
  jobj [("id", market.jget "id"),
        ("name", nameVal (market.jget "name")),
        ("status", market.jget "status"),
        ("parameters", jobj params),
        ("options", jarr (_slim_options market))]

/-- The body of `prune_fixture_raw` once both `isinstance` guards passed:
market filtering with the keep-all fallback, team-participant filtering
and the slim fixture rebuild. -/
def prune_fixture_dict (ffs : JObj) : Json :=
  let fixture := Json.obj ffs
  let option_markets := ((fixture.jget "optionMarkets").pyOr (jarr [])).getArr
  let filtered_markets := (option_markets.filter _should_keep_market).map _slim_market
  let filtered_markets := if filtered_markets.isEmpty
    then option_markets.map _slim_market else filtered_markets
  let participants := ((fixture.jget "participants").pyOr (jarr [])).getArr.filterMap
    (fun item =>
      if jmemStr (((item.jget "properties").pyOr (jobj [])).jget "type")
          TEAM_PARTICIPANT_TYPES then
        some (jobj [("id", item.jget "id"),
                    ("participantId", item.jget "participantId"),
                    ("name", item.jget "name"),
                    ("status", item.jget "status"),
                    ("image", item.jget "image"),
                    ("properties", item.jget "properties")])
      else none)
  jobj [("fixture", jobj
    [("id", fixture.jget "id"),
     ("sourceId", fixture.jget "sourceId"),
     ("name", fixture.jget "name"),
     ("fixtureType", fixture.jget "fixtureType"),
     ("context", fixture.jget "context"),
     ("startDate", fixture.jget "startDate"),
     ("cutOffDate", fixture.jget "cutOffDate"),
     ("sport", fixture.jget "sport"),
     ("competition", fixture.jget "competition"),
     ("region", fixture.jget "region"),
     ("participants", jarr participants),
     ("scoreboard", fixture.jget "scoreboard"),
     ("totalMarketsCount", fixture.jget "totalMarketsCount"),
     ("priceBoostCount", fixture.jget "priceBoostCount"),
     ("addons", fixture.jget "addons"),
     ("marketGroups", fixture.jget "marketGroups"),
     ("optionMarkets", jarr filtered_markets)])]

/-- `prune_fixture_raw(raw)`: non-dict payloads, or payloads whose
`fixture` is not a dict, pass through unchanged. -/
def prune_fixture_raw (raw : Json) : Json :=
  match raw with
  | .obj _ =>
    match raw.jget "fixture" with
    | .obj ffs => prune_fixture_dict ffs
    | _ => raw
  | _ => raw

theorem prune_fixture_dict_optionMarkets (ffs : JObj) :
    ((prune_fixture_dict ffs).jget "fixture").jget "optionMarkets" =
      jarr (
        if (((((Json.obj ffs).jget "optionMarkets").pyOr
            (jarr [])).getArr.filter _should_keep_market).map _slim_market).isEmpty
        then (((Json.obj ffs).jget "optionMarkets").pyOr
          (jarr [])).getArr.map _slim_market
        else ((((Json.obj ffs).jget "optionMarkets").pyOr
          (jarr [])).getArr.filter _should_keep_market).map _slim_market) := by
  unfold prune_fixture_dict
  simp [Json.jget, jobj, dget]

/-- C6 amended: the keep-all fallback holds for the sportingbet reducer
`prune_fixture_raw` — when the allow-set filter matches none of the
markets, the output still contains every input market in slimmed form, and
the reduced market list is never empty when the input list was non-empty.
(The superbet reducer `prune_event_raw` has no such fallback; see the
counterexample.) -/
theorem prune_fixture_raw_keepall (rfs ffs : JObj)
    (hfix : (Json.obj rfs).jget "fixture" = Json.obj ffs) :
    ((∀ m ∈ (((Json.obj ffs).jget "optionMarkets").pyOr (jarr [])).getArr,
        _should_keep_market m = false) →
      ((prune_fixture_raw (Json.obj rfs)).jget "fixture").jget "optionMarkets" =
        jarr ((((Json.obj ffs).jget "optionMarkets").pyOr
          (jarr [])).getArr.map _slim_market))
    ∧ ((((Json.obj ffs).jget "optionMarkets").pyOr (jarr [])).getArr ≠ [] →
      (((prune_fixture_raw (Json.obj rfs)).jget "fixture").jget
        "optionMarkets").getArr ≠ []) := by
  have hred : prune_fixture_raw (Json.obj rfs) = prune_fixture_dict ffs := by
    unfold prune_fixture_raw
    rw [hfix]
  rw [hred, prune_fixture_dict_optionMarkets]
  constructor
  · intro hall
    have hfilter : (((Json.obj ffs).jget "optionMarkets").pyOr
        (jarr [])).getArr.filter _should_keep_market = [] := by
      rw [List.filter_eq_nil_iff]
      intro a ha
      simp [hall a ha]
    rw [hfilter]
    simp
  · intro hne
    by_cases hf : (((((Json.obj ffs).jget "optionMarkets").pyOr
        (jarr [])).getArr.filter _should_keep_market).map _slim_market).isEmpty
    · rw [if_pos hf, getArr_jarr]
      simpa using hne
    · rw [if_neg hf, getArr_jarr]
      simpa [List.isEmpty_iff] using hf

theorem prune_fixture_raw_keepall_witness :
    (∀ m ∈ (((Json.obj (JObj.ofList [("optionMarkets",
        jarr [jobj [("parameters", jarr [jobj [("key", Json.str "MarketType"),
          ("value", Json.str "weird")]])]])])).jget
        "optionMarkets").pyOr (jarr [])).getArr,
      _should_keep_market m = false)
    ∧ ((prune_fixture_raw (Json.obj (JObj.ofList [("fixture",
        Json.obj (JObj.ofList [("optionMarkets",
          jarr [jobj [("parameters", jarr [jobj [("key", Json.str "MarketType"),
            ("value", Json.str "weird")]])]])]))]))).jget "fixture").jget
        "optionMarkets" =
      jarr ((((Json.obj (JObj.ofList [("optionMarkets",
        jarr [jobj [("parameters", jarr [jobj [("key", Json.str "MarketType"),
          ("value", Json.str "weird")]])]])])).jget "optionMarkets").pyOr
        (jarr [])).getArr.map _slim_market) :=
  ⟨by decide, (prune_fixture_raw_keepall _ _ (by decide)).1 (by decide)⟩

/-! ## `is_valid_fixture` (sportingbetraw.py, lines 431-453) -/

/-- `SPORT_ID = 4` (futebol). -/
def SPORT_ID : ℚ := 4

/-- `isinstance(x, dict)`. -/
def isObjB : Json → Bool
  | .obj _ => true
  | _ => false

/-- `(fixture.get("sport") or {}).get("id") or
(fixture.get("scoreboard") or {}).get("sportId")`. -/
def fixtureSportId (fixture : Json) : Json :=
  (((fixture.jget "sport").pyOr (jobj [])).jget "id").pyOr
    (((fixture.jget "scoreboard").pyOr (jobj [])).jget "sportId")

/-- `(((fixture.get("competition") or {}).get("name") or {}).get("value")
or "").lower()`. -/
def fixtureCompNameLower (fixture : Json) : String :=
  let n0 := ((fixture.jget "competition").pyOr (jobj [])).jget "name"
  let n1 := (n0.pyOr (jobj [])).jget "value"
  pyLower (pyStrOrEmpty (n1.pyOr (Json.str "")))

/-- `(fixture.get("fixtureType") or "").lower()`. -/
def fixtureTypeLower (fixture : Json) : String :=
  pyLower (pyStrOrEmpty ((fixture.jget "fixtureType").pyOr (Json.str "")))

/-- `is_valid_fixture(fixture)`: rejects non-dicts, a (truthy) sport id
different from `SPORT_ID`, fewer than two dict participants, an
empty/falsy `optionMarkets`, a composite ("múltiplas"/"multipla")
competition name, and an explicit `fixtureType` other than "pairgame"
(case-folded). -/
def is_valid_fixture (fixture : Json) : Bool :=
  match fixture with
  | .obj _ =>
    if (fixtureSportId fixture).truthy = true
        ∧ fixtureSportId fixture ≠ Json.num SPORT_ID then false
    else if (((fixture.jget "participants").pyOr
        (jarr [])).getArr.filter isObjB).length < 2 then false
    else if ((fixture.jget "optionMarkets").pyOr (jarr [])).truthy = false then
      false
    else if strContains (fixtureCompNameLower fixture) "múltiplas"
        ∨ strContains (fixtureCompNameLower fixture) "multipla" then false
    else if fixtureTypeLower fixture ≠ "" ∧
        fixtureTypeLower fixture ≠ "pairgame" then false
    else true
  | _ => false

/-- C8: on a dict fixture, `is_valid_fixture` returns `true` exactly when
the sport/category id is absent, falsy or equal to the expected `SPORT_ID`,
there are at least two (dict) participant entries, the retained market
list is non-empty (truthy), the competition name is not a composite
("múltiplas"/"multipla") name, and the case-folded `fixtureType` tag is
absent/empty or equal to "pairgame". -/
theorem is_valid_fixture_iff (fs : JObj) :
    is_valid_fixture (Json.obj fs) = true ↔
      ((fixtureSportId (Json.obj fs)).truthy = false
        ∨ fixtureSportId (Json.obj fs) = Json.num SPORT_ID)
      ∧ 2 ≤ ((((Json.obj fs).jget "participants").pyOr
          (jarr [])).getArr.filter isObjB).length
      ∧ (((Json.obj fs).jget "optionMarkets").pyOr (jarr [])).truthy = true
      ∧ ¬(strContains (fixtureCompNameLower (Json.obj fs)) "múltiplas" = true
          ∨ strContains (fixtureCompNameLower (Json.obj fs)) "multipla" = true)
      ∧ (fixtureTypeLower (Json.obj fs) = ""
        ∨ fixtureTypeLower (Json.obj fs) = "pairgame") := by
  unfold is_valid_fixture
  split_ifs with h1 h2 h3 h4 h5
  · simp only [Bool.false_eq_true, false_iff]
    intro hc
    rcases h1 with ⟨ht, hne⟩
    rcases hc.1 with hf | heq
    · rw [ht] at hf; exact absurd hf (by simp)
    · exact absurd heq hne
  · simp only [Bool.false_eq_true, false_iff]
    intro hc
    omega
  · simp only [Bool.false_eq_true, false_iff]
    intro hc
    rw [hc.2.2.1] at h3
    exact absurd h3 (by simp)
  · simp only [Bool.false_eq_true, false_iff]
    intro hc
    rcases h4 with h4 | h4 <;> exact hc.2.2.2.1 (by simp [h4])
  · simp only [Bool.false_eq_true, false_iff]
    intro hc
    rcases hc.2.2.2.2 with he | hp
    · exact h5.1 he
    · exact h5.2 hp
  · simp only [true_iff]
    refine ⟨?_, ?_, ?_, ?_, ?_⟩
    · by_cases hsp : (fixtureSportId (Json.obj fs)).truthy
      · exact Or.inr (by_contra fun hne => h1 ⟨hsp, hne⟩)
      · exact Or.inl (by simpa using hsp)
    · omega
    · by_cases hm : (((Json.obj fs).jget "optionMarkets").pyOr
          (jarr [])).truthy
      · exact hm
      · exact absurd (by simpa using hm) h3
    · intro hc
      rcases hc with hc | hc <;> exact h4 (by simp [hc])
    · by_cases he : fixtureTypeLower (Json.obj fs) = ""
      · exact Or.inl he
      · by_cases hp : fixtureTypeLower (Json.obj fs) = "pairgame"
        · exact Or.inr hp
        · exact absurd ⟨he, hp⟩ h5

/-! ## Retry-wrapped detail fetchers
(sportingbetraw.py lines 456-492, superbetraw.py lines 188-210) -/

/-- Trace of one fetcher invocation: the returned value, the number of
attempts performed, and the backoff sleeps executed between attempts. -/
structure RetryTrace where
  result : Option Json
  attemptsMade : ℕ
  waits : List ℚ
  deriving DecidableEq, Repr

/-- One attempt of `fetch_fixture_detail`.  The transport models one
`session.get`: `none` is a raised `RequestException`, `some (status,
payload)` a response with parsed JSON body.  The attempt succeeds when the
status is 200 and the payload is a dict with a truthy `fixture` field. -/
def sbAttempt (transport : ℕ → Option (ℕ × Json)) (attempt : ℕ) :
    Option Json :=
  match transport attempt with
  | some (status, payload) =>
    if status = 200 then
      if isObjB payload = true ∧ (payload.jget "fixture").truthy = true then
        some payload
      else none
    else none
  | none => none

/-- `fetch_fixture_detail` (sportingbetraw.py, lines 456-492):
`for attempt in range(1, 4)` unrolled; after a failed attempt other than
the last, the code sleeps `0.5 * attempt` (recorded in `waits`); no wait
follows the last attempt. -/
def fetch_fixture_detail (transport : ℕ → Option (ℕ × Json)) : RetryTrace :=
  match sbAttempt transport 1 with
  | some p => ⟨some p, 1, []⟩
  | none =>
    match sbAttempt transport 2 with
    | some p => ⟨some p, 2, [(1 : ℚ)/2 * 1]⟩
    | none =>
      match sbAttempt transport 3 with
      | some p => ⟨some p, 3, [(1 : ℚ)/2 * 1, (1 : ℚ)/2 * 2]⟩
      | none => ⟨none, 3, [(1 : ℚ)/2 * 1, (1 : ℚ)/2 * 2]⟩

/-- One attempt of `fetch_full_event`: success needs a 200 status and a
truthy `data` field; the first `data` element is pruned when a market
allow list is active (`ALLOWED_MARKET_IDS`).  A truthy non-array `data`
would crash the Python at `data[0]`; it does not occur in practice. -/
def superAttempt (transport : ℕ → Option (ℕ × Json))
    (allowed : Option (List ℚ)) (attempt : ℕ) : Option Json :=
  match transport attempt with
  | some (status, payload) =>
    if status = 200 then
      let data := payload.jget "data"
      if data.truthy then
        match data with
        | .arr (JArr.cons x _) =>
            some (match allowed with
                  | some l => if l.isEmpty then x else prune_event_raw x l
                  | none => x)
        | _ => none
      else none
    else none
  | none => none

/-- The retry loop of `fetch_full_event`; `left` counts the remaining
retries (`retries - attempt`), mirroring the `attempt < retries` guard,
and `0.5 * attempt` is slept between consecutive attempts. -/
def superRetryGo (transport : ℕ → Option (ℕ × Json))
    (allowed : Option (List ℚ)) : ℕ → ℕ → List ℚ → RetryTrace
  | attempt, left, waits =>
    match superAttempt transport allowed attempt with
    | some v => ⟨some v, attempt, waits⟩
    | none =>
      match left with
      | 0 => ⟨none, attempt, waits⟩
      | left' + 1 =>
          superRetryGo transport allowed (attempt + 1) left'
            (waits ++ [(1 : ℚ)/2 * (attempt : ℚ)])

/-- `fetch_full_event(event_id, retries)` (superbetraw.py, lines 188-210)
with the network session abstracted: `range(1, retries + 1)` attempts,
linear backoff between them, `None` once the budget is exhausted. -/
def fetch_full_event (transport : ℕ → Option (ℕ × Json))
    (allowed : Option (List ℚ)) (retries : ℕ) : RetryTrace :=
  match retries with
  | 0 => ⟨none, 0, []⟩
  | r + 1 => superRetryGo transport allowed 1 r []

/-- C5: with an attempt budget of 3 and a transport failing on every
attempt (always raising, or always returning a non-2xx status), both
retry-wrapped fetchers perform exactly 3 attempts, return the failure
value `none`, and sleep exactly twice — 0.5 then 1.0 time-units, strictly
increasing — with no wait after the final attempt. -/
theorem retry_three_attempts_linear_backoff :
    fetch_fixture_detail (fun _ => none) = ⟨none, 3, [(1 : ℚ)/2, 1]⟩
    ∧ fetch_fixture_detail (fun _ => some (500, Json.null)) =
      ⟨none, 3, [(1 : ℚ)/2, 1]⟩
    ∧ fetch_full_event (fun _ => none) (some [547]) 3 =
      ⟨none, 3, [(1 : ℚ)/2, 1]⟩
    ∧ fetch_full_event (fun _ => some (500, Json.null)) (some [547]) 3 =
      ⟨none, 3, [(1 : ℚ)/2, 1]⟩
    ∧ (1 : ℚ)/2 < 1 := by
  refine ⟨?_, ?_, ?_, ?_, by norm_num⟩ <;>
    norm_num [fetch_fixture_detail, sbAttempt, fetch_full_event, superRetryGo,
      superAttempt, Json.jget, Json.truthy]

/-! ## Bounded concurrent enrichers
(sportingbetraw.py lines 495-531, superbetraw.py lines 213-266,
betmgmraw.py lines 182-201)

The network fetch each worker performs is abstracted as a `fetch`
function; `as_completed` order is abstracted as `order`, a permutation of
the indices of the submitted futures. -/

def MAX_WORKERS_CAP : ℕ := 12

/-- `record[k] = v` on a dict record. -/
def jset (j : Json) (k : String) (v : Json) : Json :=
  match j with
  | .obj fs => .obj (JObj.ofList (dset fs.toList k v))
  | _ => j

/-- `str(fx.get("id") or fx.get("fixtureId") or "")`. -/
def sb_fixture_id (fx : Json) : String :=
  pyStr (((fx.jget "id").pyOr (fx.jget "fixtureId")).pyOr (Json.str ""))

/-- The sequential (`max_workers == 1`) branch of `enrich_fixtures`: a
fixture with a non-empty id is fetched; a truthy detail is attached as
`raw`, otherwise the fixture is yielded unchanged. -/
def enrich_fixtures_seq (fetch : String → Option Json)
    (fixtures : List Json) : List Json :=
  if fixtures.isEmpty then [] else
  fixtures.map (fun fx =>
    let fixture_id := sb_fixture_id fx
    let detail := if fixture_id ≠ "" then fetch fixture_id else none
    match detail with
    | some d => if d.truthy then jset fx "raw" d else fx
    | none => fx)

/-- The futures submitted by the concurrent branch of `enrich_fixtures`:
fixtures lacking an id are skipped (`continue`) and never yielded. -/
def sb_submitted (fixtures : List Json) : List (String × Json) :=
  fixtures.filterMap (fun fx =>
    if sb_fixture_id fx = "" then none else some (sb_fixture_id fx, fx))

/-- The concurrent branch of `enrich_fixtures`: results in completion
order; a failed or crashed future yields the fixture without a detail. -/
def enrich_fixtures_conc (fetch : String → Option Json)
    (fixtures : List Json) (order : List ℕ) : List Json :=
  if fixtures.isEmpty then [] else
  (order.filterMap (fun i => (sb_submitted fixtures).get? i)).map (fun p =>
    match fetch p.1 with
    | some d => if d.truthy then jset p.2 "raw" d else p.2
    | none => p.2)

/-- `enrich_fixtures(fixtures, ..., max_workers)`: worker count clamped to
`max(1, min(max_workers, MAX_WORKERS_CAP))`, sequential when 1. -/
def enrich_fixtures (fetch : String → Option Json) (fixtures : List Json)
    (max_workers : ℕ) (order : List ℕ) : List Json :=
  let w := max 1 (min max_workers MAX_WORKERS_CAP)
  if w = 1 then enrich_fixtures_seq fetch fixtures
  else enrich_fixtures_conc fetch fixtures order

/-- The ids `enrich_fixtures` hands to the detail fetcher (identical in
both branches): exactly the non-empty fixture ids. -/
def enrich_fixtures_fetched (fixtures : List Json) : List String :=
  if fixtures.isEmpty then [] else (sb_submitted fixtures).map Prod.fst

/-- The sequential branch of `enrich_events_with_markets`: an event with a
truthy `event_id` is enriched; falsy payloads and missing ids keep the
partial event. -/
def enrich_events_with_markets_seq (fetch : Json → Option Json)
    (events : List Json) : List Json :=
  events.map (fun event =>
    let event_id := event.jget "event_id"
    if event_id.truthy then
      match fetch event_id with
      | some d => if d.truthy then jset event "raw" d else event
      | none => event
    else event)

/-- Events the concurrent branch submits to the pool (truthy `event_id`). -/
def superbet_submitted (events : List Json) : List Json :=
  events.filter (fun e => (e.jget "event_id").truthy)

/-- Events the concurrent branch yields immediately, unenriched, during
submission (missing/falsy `event_id`). -/
def superbet_unsubmitted (events : List Json) : List Json :=
  events.filter (fun e => !(e.jget "event_id").truthy)

/-- The concurrent branch of `enrich_events_with_markets`: id-less events
are yielded at submission time, submitted ones in completion order. -/
def enrich_events_with_markets_conc (fetch : Json → Option Json)
    (events : List Json) (order : List ℕ) : List Json :=
  superbet_unsubmitted events ++
    (order.filterMap (fun i => (superbet_submitted events).get? i)).map
      (fun event =>
        match fetch (event.jget "event_id") with
        | some d => if d.truthy then jset event "raw" d else event
        | none => event)

/-- `enrich_events_with_markets(session, events, max_workers)` with the
worker count clamped to `[1, MAX_WORKERS_CAP]`; sequential when 1. -/
def enrich_events_with_markets (fetch : Json → Option Json)
    (events : List Json) (max_workers : ℕ) (order : List ℕ) : List Json :=
  let w := min (max max_workers 1) MAX_WORKERS_CAP
  if w = 1 then enrich_events_with_markets_seq fetch events
  else enrich_events_with_markets_conc fetch events order

/-- Ids `enrich_events_with_markets` hands to the fetcher (either branch):
exactly the truthy `event_id`s. -/
def enrich_events_with_markets_fetched (events : List Json) : List Json :=
  (superbet_submitted events).map (fun e => e.jget "event_id")

/-- `str(evt.get("id") or evt.get("eventId"))` — betmgm submits this for
every event, id-less ones included (`str(None) = "None"`). -/
def betmgm_event_id (evt : Json) : String :=
  pyStr ((evt.jget "id").pyOr (evt.jget "eventId"))

/-- `enrich_events(events, max_workers)` (betmgmraw.py, lines 182-201):
every event is submitted; only events whose fetch returned a truthy detail
are appended to the result — the rest are dropped. -/
def enrich_events (fetch : String → Option Json) (events : List Json)
    (order : List ℕ) : List Json :=
  let future_map := events.map (fun evt => (betmgm_event_id evt, evt))
  (order.filterMap (fun i => future_map.get? i)).filterMap (fun p =>
    match fetch p.1 with
    | some d => if d.truthy then some (jset p.2 "raw" d) else none
    | none => none)

/-- Ids `enrich_events` hands to the fetcher: one per event. -/
def enrich_events_fetched (events : List Json) : List String :=
  events.map betmgm_event_id

section EnricherLemmas

variable {α β : Type}

theorem length_filterMap_get (l : List α) : ∀ (order : List ℕ),
    (∀ i ∈ order, i < l.length) →
    (order.filterMap l.get?).length = order.length
  | [], _ => rfl
  | i :: rest, h => by
    have hi : i < l.length := h i (List.mem_cons_self _ _)
    simp only [List.filterMap_cons, List.get?_eq_get hi, List.length_cons]
    rw [length_filterMap_get l rest
      (fun j hj => h j (List.mem_cons_of_mem _ hj))]

theorem mem_of_perm_range {order : List ℕ} {n : ℕ}
    (h : order.Perm (List.range n)) : ∀ i ∈ order, i < n :=
  fun _ hi => List.mem_range.mp (h.subset hi)

theorem filterMap_get_range : ∀ (l : List α),
    (List.range l.length).filterMap l.get? = l
  | [] => rfl
  | a :: t => by
    have h2 : (a :: t).get? ∘ Nat.succ = t.get? := funext (fun _ => rfl)
    simp only [List.length_cons, List.range_succ_eq_map, List.filterMap_cons,
      List.get?_cons_zero, List.filterMap_map, h2, filterMap_get_range t]

theorem perm_filterMap_get {l : List α} {order : List ℕ}
    (h : order.Perm (List.range l.length)) :
    (order.filterMap l.get?).Perm l :=
  (h.filterMap l.get?).trans (by rw [filterMap_get_range])

theorem length_filterMap_eq_countP (g : α → Option β) : ∀ (l : List α),
    (l.filterMap g).length = l.countP (fun a => (g a).isSome)
  | [] => rfl
  | a :: t => by
    rw [List.filterMap_cons, List.countP_cons]
    cases hg : g a <;>
      simp [hg, length_filterMap_eq_countP g t]

theorem filter_partition_length (p : α → Bool) : ∀ (l : List α),
    (l.filter (fun a => !(p a))).length + (l.filter p).length = l.length
  | [] => rfl
  | a :: t => by
    have ih := filter_partition_length p t
    cases hp : p a <;> simp [List.filter_cons, hp] <;> omega

end EnricherLemmas

/-- C3 counterexample: the betmgm enricher is not conservative.  One
listing, a detail fetch that fails (returns no detail): `enrich_events`
yields zero records instead of one — the listing is dropped, not yielded
without a detail. -/
theorem enrich_events_drops_failed_fetch :
    enrich_events (fun _ => none) [jobj [("id", Json.str "1")]] [0] = []
    ∧ ([jobj [("id", Json.str "1")]] : List Json).length = 1 := by decide

/-- C3 amended: conservation holds for the superbet enricher (any worker
limit W ≥ 1: exactly N records out) and for the sportingbet enricher in
sequential mode (W = 1); the sportingbet concurrent mode (W ≥ 2) yields
exactly the listings that carry an id; the betmgm enricher yields exactly
the listings whose detail fetch returned a truthy payload.  In the
conserving enrichers a failed fetch yields the original listing with no
detail attached. -/
theorem enricher_conservation_amended
    (fetchS : String → Option Json) (fetchJ : Json → Option Json)
    (fixtures events : List Json) (w : ℕ) (orderF orderE : List ℕ) :
    (2 ≤ w → orderF.Perm (List.range (sb_submitted fixtures).length) →
      (enrich_fixtures fetchS fixtures w orderF).length =
        (sb_submitted fixtures).length)
    ∧ (enrich_fixtures fetchS fixtures 1 orderF).length = fixtures.length
    ∧ (1 ≤ w → orderE.Perm (List.range (superbet_submitted events).length) →
      (enrich_events_with_markets fetchJ events w orderE).length =
        events.length)
    ∧ (orderE.Perm (List.range events.length) →
      (enrich_events fetchS events orderE).length =
        (events.filter (fun evt =>
          match fetchS (betmgm_event_id evt) with
          | some d => d.truthy
          | none => false)).length)
    ∧ (∀ fx, fetchS (sb_fixture_id fx) = none →
      enrich_fixtures fetchS [fx] 1 orderF = [fx])
    ∧ (∀ e, fetchJ (e.jget "event_id") = none →
      enrich_events_with_markets fetchJ [e] 1 orderE = [e]) := by
  refine ⟨?_, ?_, ?_, ?_, ?_, ?_⟩
  · -- sportingbet, concurrent mode
    intro hw hperm
    have hne : max 1 (min w MAX_WORKERS_CAP) ≠ 1 := by
      unfold MAX_WORKERS_CAP; omega
    simp only [enrich_fixtures, if_neg hne]
    unfold enrich_fixtures_conc
    by_cases hf : fixtures.isEmpty
    · rw [if_pos hf]
      obtain rfl : fixtures = [] := List.isEmpty_iff.mp hf
      simp [sb_submitted]
    · rw [if_neg hf, List.length_map,
        length_filterMap_get _ _ (mem_of_perm_range hperm),
        hperm.length_eq, List.length_range]
  · -- sportingbet, sequential mode
    have h1 : max 1 (min 1 MAX_WORKERS_CAP) = 1 := by
      unfold MAX_WORKERS_CAP; omega
    simp only [enrich_fixtures, h1, if_pos]
    unfold enrich_fixtures_seq
    by_cases hf : fixtures.isEmpty
    · rw [if_pos hf]
      obtain rfl : fixtures = [] := List.isEmpty_iff.mp hf
      rfl
    · rw [if_neg hf, List.length_map]
  · -- superbet, both modes
    intro _ hperm
    simp only [enrich_events_with_markets]
    by_cases hw1 : min (max w 1) MAX_WORKERS_CAP = 1
    · rw [if_pos hw1]
      unfold enrich_events_with_markets_seq
      rw [List.length_map]
    · rw [if_neg hw1]
      unfold enrich_events_with_markets_conc
      rw [List.length_append, List.length_map,
        length_filterMap_get _ _ (mem_of_perm_range hperm),
        hperm.length_eq, List.length_range]
      exact filter_partition_length (fun e => (e.jget "event_id").truthy) events
  · -- betmgm: only successful fetches survive
    intro hperm
    simp only [enrich_events]
    have hlen : (events.map (fun evt => (betmgm_event_id evt, evt))).length
        = events.length := List.length_map _ _
    have hperm2 : (orderE.filterMap
        (events.map (fun evt => (betmgm_event_id evt, evt))).get?).Perm
        (events.map (fun evt => (betmgm_event_id evt, evt))) :=
      perm_filterMap_get (by rwa [hlen])
    rw [length_filterMap_eq_countP, hperm2.countP_eq, List.countP_map,
      List.countP_eq_length_filter]
    congr 1
    apply List.filter_congr
    intro evt _
    simp only [Function.comp]
    cases hf : fetchS (betmgm_event_id evt) with
    | none => rfl
    | some d => cases hd : d.truthy <;> simp [hd]
  · -- sportingbet: a failed fetch keeps the original listing
    intro fx hfetch
    have h1 : max 1 (min 1 MAX_WORKERS_CAP) = 1 := by
      unfold MAX_WORKERS_CAP; omega
    simp only [enrich_fixtures, h1, if_pos]
    unfold enrich_fixtures_seq
    by_cases hid : sb_fixture_id fx = "" <;> simp [hid, hfetch]
  · -- superbet: a failed fetch keeps the original listing
    intro e hfetch
    simp only [enrich_events_with_markets]
    have hw1 : min (max 1 1) MAX_WORKERS_CAP = 1 := by
      unfold MAX_WORKERS_CAP; omega
    rw [if_pos hw1]
    unfold enrich_events_with_markets_seq
    by_cases hid : (e.jget "event_id").truthy <;> simp [hid, hfetch]

theorem enricher_conservation_amended_witness :
    (1 ≤ 8 ∧ ([0] : List ℕ).Perm (List.range (superbet_submitted
      [jobj [("x", Json.num 1)], jobj [("event_id", Json.str "7")]]).length))
    ∧ (enrich_events_with_markets (fun _ => none)
        [jobj [("x", Json.num 1)], jobj [("event_id", Json.str "7")]] 8
        [0]).length =
      ([jobj [("x", Json.num 1)],
        jobj [("event_id", Json.str "7")]] : List Json).length :=
  ⟨⟨by norm_num, by
    have h : List.range (superbet_submitted
        [jobj [("x", Json.num 1)], jobj [("event_id", Json.str "7")]]).length
        = [0] := by decide
    rw [h]⟩,
    (enricher_conservation_amended (fun _ => none) (fun _ => none) []
      [jobj [("x", Json.num 1)], jobj [("event_id", Json.str "7")]] 8 []
      [0]).2.2.1 (by norm_num) (by
        have h : List.range (superbet_submitted
            [jobj [("x", Json.num 1)],
              jobj [("event_id", Json.str "7")]]).length = [0] := by decide
        rw [h])⟩

/-- C7 counterexample: a listing with no resolvable id is not yielded by
the sportingbet concurrent enricher (it is skipped before submission), and
the betmgm enricher does invoke the fetcher for an id-less listing — with
the literal id "None" (`str(None)`). -/
theorem enrich_fixtures_conc_drops_missing_id :
    enrich_fixtures (fun _ => none) [jobj [("name", Json.str "x")]] 8 [] = []
    ∧ enrich_events_fetched [jobj [("name", Json.str "x")]] = ["None"] := by
  decide

/-- C7 amended: the superbet enricher (both modes) yields a listing with a
missing/falsy id unchanged, and the ids it fetches are all truthy; the
sportingbet sequential mode yields id-less listings unchanged, and neither
sportingbet mode ever fetches an empty id (the concurrent mode, however,
drops such listings — see the counterexample). -/
theorem missing_id_bypass_amended
    (fetchS : String → Option Json) (fetchJ : Json → Option Json)
    (fixtures events : List Json) (w : ℕ) (orderF orderE : List ℕ) :
    (∀ fx ∈ fixtures, sb_fixture_id fx = "" →
      fx ∈ enrich_fixtures fetchS fixtures 1 orderF)
    ∧ (∀ i ∈ enrich_fixtures_fetched fixtures, i ≠ "")
    ∧ (∀ e ∈ events, (e.jget "event_id").truthy = false →
      e ∈ enrich_events_with_markets fetchJ events w orderE)
    ∧ (∀ i ∈ enrich_events_with_markets_fetched events, i.truthy = true) := by
  refine ⟨?_, ?_, ?_, ?_⟩
  · intro fx hfx hid
    have h1 : max 1 (min 1 MAX_WORKERS_CAP) = 1 := by
      unfold MAX_WORKERS_CAP; omega
    simp only [enrich_fixtures, h1, if_pos]
    unfold enrich_fixtures_seq
    rw [if_neg (by simp [List.isEmpty_iff]; exact List.ne_nil_of_mem hfx)]
    exact List.mem_map.mpr ⟨fx, hfx, by simp [hid]⟩
  · intro i hi
    unfold enrich_fixtures_fetched at hi
    by_cases hf : fixtures.isEmpty
    · rw [if_pos hf] at hi
      exact absurd hi (List.not_mem_nil i)
    · rw [if_neg hf] at hi
      obtain ⟨p, hp, rfl⟩ := List.mem_map.mp hi
      obtain ⟨fx, _, hfx2⟩ := List.mem_filterMap.mp hp
      by_cases hid : sb_fixture_id fx = ""
      · rw [if_pos hid] at hfx2
        exact absurd hfx2 (by simp)
      · rw [if_neg hid] at hfx2
        obtain rfl : (sb_fixture_id fx, fx) = p := Option.some.inj hfx2
        exact hid
  · intro e he hid
    simp only [enrich_events_with_markets]
    by_cases hw1 : min (max w 1) MAX_WORKERS_CAP = 1
    · rw [if_pos hw1]
      unfold enrich_events_with_markets_seq
      exact List.mem_map.mpr ⟨e, he, by simp [hid]⟩
    · rw [if_neg hw1]
      unfold enrich_events_with_markets_conc
      exact List.mem_append_left _
        (List.mem_filter.mpr ⟨he, by simp [hid]⟩)
  · intro i hi
    unfold enrich_events_with_markets_fetched at hi
    obtain ⟨e, he, rfl⟩ := List.mem_map.mp hi
    unfold superbet_submitted at he
    exact (List.mem_filter.mp he).2

theorem missing_id_bypass_amended_witness :
    ((jobj [("x", Json.num 1)]).jget "event_id").truthy = false
    ∧ jobj [("x", Json.num 1)] ∈
      enrich_events_with_markets (fun _ => none)
        [jobj [("x", Json.num 1)]] 8 [] :=
  ⟨by decide,
    (missing_id_bypass_amended (fun _ => none) (fun _ => none) []
      [jobj [("x", Json.num 1)]] 8 [] []).2.2.1 _
      (List.mem_singleton.mpr rfl) (by decide)⟩

/-! ## Batching persister flush loop
(sportingbetraw.py `main` lines 611-620, superbetraw.py `main`
lines 340-352)

Both mains run the same loop over the enriched stream: append each record
to a buffer, flush (`save_raw` / `save_raw_events`) once
`len(buffer) >= max(1, args.flush_size)`, and flush the final non-empty
partial buffer once the stream ends. -/

def flushBatches (flush_size : ℕ) : List α → List α → List (List α)
  | buffer, [] => if buffer.isEmpty then [] else [buffer]
  | buffer, fx :: rest =>
      let buffer := buffer ++ [fx]
      if max 1 flush_size ≤ buffer.length then
        buffer :: flushBatches flush_size [] rest
      else
        flushBatches flush_size buffer rest

/-- The sequence of batches passed to the persister for a given enriched
stream and flush size. -/
def run_batches (flush_size : ℕ) (stream : List α) : List (List α) :=
  flushBatches flush_size [] stream

section BatchLemmas

variable {α : Type}

theorem flushBatches_flatten (F : ℕ) : ∀ (stream buffer : List α),
    (flushBatches F buffer stream).flatten = buffer ++ stream
  | [], buffer => by
    by_cases hb : buffer.isEmpty
    · obtain rfl : buffer = [] := List.isEmpty_iff.mp hb
      simp [flushBatches]
    · simp [flushBatches, hb]
  | fx :: rest, buffer => by
    simp only [flushBatches]
    by_cases hfull : max 1 F ≤ (buffer ++ [fx]).length
    · rw [if_pos hfull]
      simp [flushBatches_flatten F rest []]
    · rw [if_neg hfull]
      rw [flushBatches_flatten F rest (buffer ++ [fx])]
      simp

theorem flushBatches_sizes (F : ℕ) (hF : 1 ≤ F) : ∀ (stream buffer : List α),
    buffer.length < F →
    (∀ b ∈ flushBatches F buffer stream, b ≠ [] ∧ b.length ≤ F)
    ∧ (∀ b ∈ (flushBatches F buffer stream).dropLast, b.length = F)
  | [], buffer, hlt => by
    by_cases hb0 : buffer.isEmpty
    · constructor <;> intro b hb <;> simp [flushBatches, hb0] at hb
    · constructor
      · intro b hb
        simp only [flushBatches, hb0] at hb
        rw [if_neg (by simp)] at hb
        obtain rfl : b = buffer := List.mem_singleton.mp hb
        exact ⟨fun h => hb0 (by simp [h]), Nat.le_of_lt hlt⟩
      · intro b hb
        simp only [flushBatches, hb0] at hb
        rw [if_neg (by simp)] at hb
        simp at hb
  | fx :: rest, buffer, hlt => by
    have hmax : max 1 F = F := Nat.max_eq_right hF
    simp only [flushBatches, hmax]
    by_cases hfull : F ≤ (buffer ++ [fx]).length
    · rw [if_pos hfull]
      have hlen : (buffer ++ [fx]).length = F := by
        simp only [List.length_append, List.length_singleton] at hfull ⊢
        omega
      have ih := flushBatches_sizes F hF rest [] (by simpa using hF)
      constructor
      · intro b hb
        rcases List.mem_cons.mp hb with rfl | hb
        · exact ⟨by simp, Nat.le_of_eq hlen⟩
        · exact ih.1 b hb
      · intro b hb
        cases hT : flushBatches F ([] : List α) rest with
        | nil =>
          rw [hT] at hb
          simp at hb
        | cons x xs =>
          rw [hT, List.dropLast_cons₂] at hb
          rcases List.mem_cons.mp hb with rfl | hb
          · exact hlen
          · exact ih.2 b (by rw [hT]; exact hb)
    · rw [if_neg hfull]
      have hlt2 : (buffer ++ [fx]).length < F := by
        simp only [List.length_append, List.length_singleton] at hfull ⊢
        omega
      exact flushBatches_sizes F hF rest (buffer ++ [fx]) hlt2

end BatchLemmas

/-- C9: for every enriched stream and flush size F ≥ 1, the flush loop of
the sportingbet/superbet mains passes every record to the persister in
exactly one flush and in order (the concatenation of the batches is the
stream); every flushed batch is non-empty and no larger than F, every
batch except possibly the final partial one holds exactly F records, and
the final partial batch is flushed too (nothing non-empty is left
behind). -/
theorem flush_discipline {α : Type} (stream : List α) (F : ℕ) (hF : 1 ≤ F) :
    (run_batches F stream).flatten = stream
    ∧ (∀ b ∈ run_batches F stream, b ≠ [] ∧ b.length ≤ F)
    ∧ (∀ b ∈ (run_batches F stream).dropLast, b.length = F) := by
  refine ⟨?_, ?_, ?_⟩
  · have h := flushBatches_flatten F stream ([] : List α)
    simpa [run_batches] using h
  · exact (flushBatches_sizes F hF stream [] (by simpa using hF)).1
  · exact (flushBatches_sizes F hF stream [] (by simpa using hF)).2

theorem flush_discipline_witness :
    (1 ≤ 2
    ∧ (run_batches 2 [10, 20, 30]).flatten = [10, 20, 30])
    ∧ run_batches 2 [10, 20, 30] = [[10, 20], [30]] :=
  ⟨⟨by norm_num, (flush_discipline [10, 20, 30] 2 (by norm_num)).1⟩,
    by decide⟩

/-! ## Date filter (sportingbetraw.py, lines 276-310) -/

/-- `parse_start(value)` over an abstract instant type `D`.
`datetime.fromisoformat` is Python stdlib, abstracted as `fromiso`; any
exception inside the `try` — including a truthy non-string value reaching
`.strip()` — yields `None`, and falsy values (`None`, `""`) yield `None`
up front. -/
def parse_start {D : Type} (fromiso : String → Option D) (value : Json) :
    Option D :=
  if value.truthy = false then none
  else
    match value with
    | .str s =>
      let clean := pyStrip s
      let clean := if clean.endsWith "Z" then clean.dropRight 1 ++ "+00:00"
        else clean
      fromiso clean
    | _ => none

/-- `filter_fixtures_by_date(fixtures, hours, allow_past)`: disabled for
`hours <= 0`; a fixture whose kickoff (`startDate or cutOffDate`) does not
parse is kept; otherwise past fixtures are dropped unless `allow_past`,
and fixtures past `upper = now + timedelta(hours=hours)` are dropped.
The clock and the timedelta arithmetic are abstract (`lower`,
`addHours`). -/
def filter_fixtures_by_date {D : Type} [LinearOrder D]
    (fromiso : String → Option D) (lower : D) (addHours : D → ℚ → D)
    (fixtures : List Json) (hours : ℚ) (allow_past : Bool) : List Json :=
  if hours ≤ 0 then fixtures
  else
    let upper := addHours lower hours
    fixtures.filter (fun fx =>
      let kickoff := (fx.jget "startDate").pyOr (fx.jget "cutOffDate")
      match parse_start fromiso kickoff with
      | none => true
      | some dt =>
        if allow_past = false ∧ dt < lower then false
        else if upper < dt then false
        else true)

/-- C10: with a positive hours window, a fixture whose kickoff timestamp
(`startDate`, falling back to `cutOffDate`) is absent or fails to parse
(`parse_start` returns `None`) is always kept by
`filter_fixtures_by_date`, for every clock value, window arithmetic,
parser, and `allow_past` flag. -/
theorem date_filter_keeps_unparseable {D : Type} [LinearOrder D]
    (fromiso : String → Option D) (lower : D) (addHours : D → ℚ → D)
    (fixtures : List Json) (hours : ℚ) (allow_past : Bool)
    (hpos : 0 < hours) :
    ∀ fx ∈ fixtures,
      parse_start fromiso ((fx.jget "startDate").pyOr (fx.jget "cutOffDate"))
        = none →
      fx ∈ filter_fixtures_by_date fromiso lower addHours fixtures hours
        allow_past := by
  intro fx hfx hparse
  unfold filter_fixtures_by_date
  rw [if_neg (not_le.mpr hpos)]
  refine List.mem_filter.mpr ⟨hfx, ?_⟩
  simp [hparse]

theorem date_filter_keeps_unparseable_witness :
    ((0 : ℚ) < 30
    ∧ parse_start (fun _ => (none : Option ℤ))
        (((jobj [("name", Json.str "x")]).jget "startDate").pyOr
          ((jobj [("name", Json.str "x")]).jget "cutOffDate")) = none)
    ∧ jobj [("name", Json.str "x")] ∈
      filter_fixtures_by_date (fun _ => (none : Option ℤ)) 0
        (fun d _ => d) [jobj [("name", Json.str "x")]] 30 false :=
  ⟨⟨by norm_num, by decide⟩,
    date_filter_keeps_unparseable (fun _ => (none : Option ℤ)) 0
      (fun d _ => d) [jobj [("name", Json.str "x")]] 30 false (by norm_num)
      _ (List.mem_singleton.mpr rfl) (by decide)⟩
